import Mathlib

/-!
# Verification of the sign-release archive transformation engine

A shallow embedding of dist/sign-release.go.  Byte sequences are lists of
naturals, SHA-256 digests are opaque byte lists produced by an arbitrary hash
function carried in the environment, and the external collaborators (the gzip,
tar, zip codecs of the Go standard library and the codesign / gpg /
osslsigncode subprocesses) are oracle functions carried in the environment as
well.  Everything that the Go file itself computes — deep paths, the transform
registry, the content-addressed transform cache, the dispatcher, the two
archive rebuilders, and the two post-run checkers — is translated directly.

Mutable process state (the filesToTransform registry and the TransformCache)
is threaded explicitly through an St value.  Signer invocations additionally
record an instrumentation trace (signCount, signTrace) so that properties
about the number of signer invocations can be stated; the trace is write-only
and never influences control flow.
-/

abbrev Bytes := List Nat

abbrev SHA256Hash := List Nat

abbrev Time := Int

abbrev Err := String

/-- Embeds type DeepPath (sign-release.go): a fixed-capacity array of three
path segments used as a map key with structural equality. -/
structure DeepPath where
  part0 : String
  part1 : String
  part2 : String
deriving DecidableEq, Repr

/-- Embeds NewDeepPath. -/
def NewDeepPath (path : String) : DeepPath :=
  ⟨path, "", ""⟩

/-- Embeds NewDeepPath2. -/
def NewDeepPath2 (path0 : String) (path1 : String) : DeepPath :=
  ⟨path0, path1, ""⟩

/-- Embeds NewDeepPath3. -/
def NewDeepPath3 (path0 : String) (path1 : String) (path2 : String) : DeepPath :=
  ⟨path0, path1, path2⟩

/-- Embeds DeepPath.Append.  The Go method copies the receiver, places the
child in the first unused slot of the copy and returns it; when no slot is
left it calls log.Fatal, which terminates the process — modelled here by
returning none. -/
def DeepPath.Append (path : DeepPath) (child : String) : Option DeepPath :=
  if path.part0 = "" then some { path with part0 := child }
  else if path.part1 = "" then some { path with part1 := child }
  else if path.part2 = "" then some { path with part2 := child }
  else none

/-- Embeds DeepPath.Last: the deepest non-empty segment. -/
def DeepPath.Last (path : DeepPath) : String :=
  if path.part2 ≠ "" then path.part2
  else if path.part1 ≠ "" then path.part1
  else path.part0

/-- Models strings.HasSuffix on the character sequences of the strings. -/
def stringHasSuffix (s suffix : String) : Bool :=
  List.isSuffixOf suffix.data s.data

/-- Embeds PathLooksLikeTarGz. -/
def PathLooksLikeTarGz (path : String) : Bool :=
  stringHasSuffix path ".tar.gz" || stringHasSuffix path ".tgz"

/-- Embeds PathLooksLikeZip. -/
def PathLooksLikeZip (path : String) : Bool :=
  stringHasSuffix path ".nupkg" || stringHasSuffix path ".vsix" ||
    stringHasSuffix path ".zip"

/-- Embeds type FileTransformType. -/
inductive FileTransformType where
  | NoTransform
  | AppleCodesign
  | GPGSign
  | MicrosoftOsslsigncode
deriving DecidableEq, Repr

/-- Embeds type FileTransformResult: nil pointers become none. -/
structure FileTransformResult where
  newFile : Option Bytes
  siblingFile : Option Bytes
  siblingFileName : String
deriving DecidableEq, Repr

/-- The zero value of FileTransformResult, produced by a Go map read on a
missing key. -/
def FileTransformResult.zeroValue : FileTransformResult :=
  { newFile := none, siblingFile := none, siblingFileName := "" }

/-- Embeds NoOpTransform. -/
def NoOpTransform : FileTransformResult :=
  { newFile := none, siblingFile := none, siblingFileName := "" }

/-- Embeds tar.Format, restricted to the values the Go file inspects or
writes (FormatUSTAR, FormatPAX, FormatGNU) plus the unset default. -/
inductive TarFormat where
  | unknown
  | ustar
  | pax
  | gnu
deriving DecidableEq, Repr

/-- Embeds the fields of tar.Header that sign-release.go reads or writes,
plus the remaining scalar metadata fields so that frame properties (which
fields an operation leaves alone) are expressible.  Sizes are int64 in Go;
they are embedded as Int.  Mode bits are non-negative in tar archives and
embedded as Nat. -/
structure TarHeader where
  typeflag : Nat
  name : String
  linkname : String
  size : Int
  mode : Nat
  uid : Int
  gid : Int
  uname : String
  gname : String
  modTime : Time
  accessTime : Time
  changeTime : Time
  format : TarFormat
deriving DecidableEq, Repr

/-- One tar entry: its header and its (fully read) content. -/
structure TarEntry where
  header : TarHeader
  content : Bytes
deriving DecidableEq, Repr

/-- Embeds the fields of zip.FileHeader that sign-release.go reads or writes
plus remaining scalar metadata.  UncompressedSize is a uint32 in Go and is
embedded as a Nat that the code reduces modulo 2^32 when writing it. -/
structure ZipHeader where
  name : String
  comment : String
  method : Nat
  modified : Time
  crc32 : Nat
  compressedSize64 : Nat
  uncompressedSize : Nat
  uncompressedSize64 : Nat
  externalAttrs : Nat
deriving DecidableEq, Repr

/-- One zip entry: its header, its decompressed content (what Open yields)
and its raw still-compressed bytes (what OpenRaw yields). -/
structure ZipEntry where
  header : ZipHeader
  content : Bytes
  raw : Bytes
deriving DecidableEq, Repr

/-- Embeds FileTransformResult.UpdateTarHeader.  The fixed process-start
timestamp (the Go global ProgramStartTime) is passed explicitly. -/
def FileTransformResult.UpdateTarHeader (self : FileTransformResult)
    (programStartTime : Time) (header : TarHeader) : TarHeader :=
  match self.newFile with
  | none => header
  | some nf =>
    let header :=
      if header.format = TarFormat.gnu ∨ header.format = TarFormat.pax then
        { header with accessTime := programStartTime, changeTime := programStartTime }
      else header
    { header with modTime := programStartTime, size := Int.ofNat nf.length }

/-- Embeds FileTransformResult.UpdateZipHeader.  The assignment
header.UncompressedSize = uint32(size) truncates to 32 bits, embedded as
reduction modulo 2^32. -/
def FileTransformResult.UpdateZipHeader (self : FileTransformResult)
    (programStartTime : Time) (header : ZipHeader) : ZipHeader :=
  match self.newFile with
  | none => header
  | some nf =>
    { header with
      modified := programStartTime,
      uncompressedSize := nf.length % 2 ^ 32,
      uncompressedSize64 := nf.length }

/-- Association-list lookup, embedding a read from a Go map (which yields at
most one value per key). -/
def lookupA {α β : Type} [DecidableEq α] : List (α × β) → α → Option β
  | [], _ => none
  | (k, v) :: rest, x => if k = x then some v else lookupA rest x

/-- Association-list key removal, embedding delete on a Go map. -/
def eraseA {α β : Type} [DecidableEq α] : List (α × β) → α → List (α × β)
  | [], _ => []
  | (k, v) :: rest, x => if k = x then eraseA rest x else (k, v) :: eraseA rest x

/-- Association-list insertion, embedding assignment m[k] = v on a Go map. -/
def insertA {α β : Type} [DecidableEq α] (l : List (α × β)) (x : α) (v : β) :
    List (α × β) :=
  (x, v) :: eraseA l x

theorem lookupA_insert {α β : Type} [DecidableEq α] (l : List (α × β)) (x : α) (v : β) :
    lookupA (insertA l x v) x = some v := by
  simp [insertA, lookupA]

theorem lookupA_erase {α β : Type} [DecidableEq α] (l : List (α × β)) (x : α) :
    lookupA (eraseA l x) x = none := by
  induction l with
  | nil => simp [eraseA, lookupA]
  | cons kv rest ih =>
    by_cases h : kv.1 = x
    · simpa [eraseA, h] using ih
    · simp [eraseA, lookupA, h, ih]

theorem lookupA_erase_ne {α β : Type} [DecidableEq α] (l : List (α × β)) (x y : α)
    (h : y ≠ x) : lookupA (eraseA l x) y = lookupA l y := by
  induction l with
  | nil => simp [eraseA]
  | cons kv rest ih =>
    by_cases hk : kv.1 = x
    · have hxy : x ≠ y := Ne.symm h
      simp [eraseA, lookupA, hk, hxy, ih]
    · by_cases hy : kv.1 = y
      · simp [eraseA, lookupA, hk, hy, h]
      · simp [eraseA, lookupA, hk, hy, ih]

theorem lookupA_insert_ne {α β : Type} [DecidableEq α] (l : List (α × β)) (x y : α)
    (v : β) (h : y ≠ x) : lookupA (insertA l x v) y = lookupA l y := by
  have hx : x ≠ y := fun hx => h hx.symm
  simp [insertA, lookupA, hx, lookupA_erase_ne l x y h]

/-- External archive codecs (Go standard library gzip/tar/zip), specified at
their interface boundary: parsing may fail (corrupt data), serialisation is a
total function chosen by the library.  deflate and crc32 model the
compression and checksum the zip writer applies to freshly written entries. -/
structure Codec where
  gunzipTar : Bytes → Option (List TarEntry)
  gzipTar : List TarEntry → Bytes
  unzip : Bytes → Option (List ZipEntry)
  zipUp : List ZipEntry → Bytes
  deflate : Nat → Bytes → Bytes
  crc32 : Bytes → Nat

/-- External signing backends, specified at their interface boundary: each
takes the number of signer invocations made so far (modelling that external
tools are stateful and not byte-level idempotent) and the input bytes, and
returns the signed output bytes — for codesign and osslsigncode the replaced
file, for gpg the detached-signature (.asc) content — or a diagnostic
error. The post-sign verification step is part of the collaborator: a result
is only returned once verification passed. -/
structure Signers where
  codesign : Nat → Bytes → Except Err Bytes
  gpgDetachSign : Nat → Bytes → Except Err Bytes
  osslsigncode : Nat → Bytes → Except Err Bytes

/-- The process environment: the SHA-256 function, the process-start
timestamp, the codecs and the signing backends. -/
structure Env where
  sha256 : Bytes → SHA256Hash
  ProgramStartTime : Time
  codec : Codec
  signers : Signers

/-- Instrumentation record of one signer invocation. -/
structure SignEvent where
  path : DeepPath
  ttype : FileTransformType
  input : Bytes
deriving DecidableEq, Repr

/-- The mutable process state: the two Go globals filesToTransform and
TransformCache, plus the write-only signer-invocation instrumentation. -/
structure St where
  filesToTransform : List (DeepPath × FileTransformType)
  TransformCache : List (SHA256Hash × FileTransformResult)
  signCount : Nat
  signTrace : List SignEvent
deriving DecidableEq, Repr

/-- Splits a character list at a separator (the list-level strings.Split). -/
def splitChars (sep : Char) : List Char → List (List Char)
  | [] => [[]]
  | c :: rest =>
    let r := splitChars sep rest
    if c = sep then [] :: r
    else (c :: r.headD []) :: r.tail

/-- Models filepath.Base for slash-separated paths. -/
def filepathBase (path : String) : String :=
  if path = "" then "."
  else
    match (splitChars '/' path.data).filter (fun g => g ≠ []) with
    | [] => "/"
    | parts => String.mk (parts.getLastD [])

/-- Models filepath.Dir for slash-separated paths. -/
def filepathDir (path : String) : String :=
  match (splitChars '/' path.data).filter (fun g => g ≠ []) with
  | [] => "."
  | [_] => "."
  | parts => String.mk (List.intercalate ['/'] parts.dropLast)

/-- Models filepath.Join of a directory and a file name. -/
def filepathJoin (dir : String) (file : String) : String :=
  if dir = "." then file else dir ++ "/" ++ file

/-- Embeds AppleCodesignTransform: copy the input to a scratch file named
after the original, run codesign then codesign-verify on it (the oracle), and
return the re-read signed bytes as a replacement. -/
def AppleCodesignTransform (env : Env) (invocation : Nat) (originalPath : String)
    (exe : Bytes) : Except Err FileTransformResult :=
  match env.signers.codesign invocation exe with
  | .error e => .error e
  | .ok signedFileContent =>
    .ok { newFile := some signedFileContent, siblingFile := none, siblingFileName := "" }

/-- Embeds GPGSignTransform: write the input to a scratch file, produce and
verify a detached armored signature (the oracle), and return the signature
bytes as a sibling file named after the original plus ".asc".  Note the
original file itself is not replaced: newFile stays nil. -/
def GPGSignTransform (env : Env) (invocation : Nat) (originalPath : String)
    (exe : Bytes) : Except Err FileTransformResult :=
  match env.signers.gpgDetachSign invocation exe with
  | .error e => .error e
  | .ok signatureFileContent =>
    .ok { newFile := none, siblingFile := some signatureFileContent,
          siblingFileName := filepathBase originalPath ++ ".asc" }

/-- Embeds MicrosoftOsslsigncodeTransform: sign and verify via osslsigncode
(the oracle) and return the signed bytes as a replacement. -/
def MicrosoftOsslsigncodeTransform (env : Env) (invocation : Nat) (exe : Bytes) :
    Except Err FileTransformResult :=
  match env.signers.osslsigncode invocation exe with
  | .error e => .error e
  | .ok signedFileContent =>
    .ok { newFile := some signedFileContent, siblingFile := none, siblingFileName := "" }

/-- Embeds WriteTarEntry: emit a header plus content, failing when the
content length disagrees with the header's declared size. -/
def WriteTarEntry (header : TarHeader) (fileContent : Bytes) : Except Err TarEntry :=
  if Int.ofNat fileContent.length = header.size then .ok ⟨header, fileContent⟩
  else .error "failed to write entire file"

/-- Go's a &^ b (AND NOT) on non-negative values: keep the bits of a that are
not set in b. -/
def andNot (a b : Nat) : Nat :=
  a - (a &&& b)

/-- The sibling tar header synthesised by TransformTarGzToFile for a detached
signature: regular file, name in the primary entry's directory, size of the
sibling blob, the primary's permissions minus execute bits, inherited
ownership, the fixed process-start timestamp, USTAR format.  The remaining
fields keep their Go zero values. -/
def siblingTarHeader (programStartTime : Time) (header : TarHeader)
    (siblingFileName : String) (sib : Bytes) : TarHeader :=
  { typeflag := 0,
    name := filepathJoin (filepathDir header.name) siblingFileName,
    linkname := "",
    size := Int.ofNat sib.length,
    mode := andNot header.mode 0o111,
    uid := header.uid,
    gid := header.gid,
    uname := header.uname,
    gname := header.gname,
    modTime := programStartTime,
    accessTime := 0,
    changeTime := 0,
    format := TarFormat.ustar }

/-- A zip entry written through zip.Writer.CreateHeader: the writer
recompresses the content with the header's method and records the checksum
and compressed size it actually produced. -/
def zipWriteEntry (codec : Codec) (header : ZipHeader) (content : Bytes) : ZipEntry :=
  let raw := codec.deflate header.method content
  { header := { header with crc32 := codec.crc32 content, compressedSize64 := raw.length },
    content := content,
    raw := raw }

/-- A zip entry written through zip.Writer.Create: a fresh deflate-method
header carrying just the name, filled in by the writer from the data. -/
def zipCreateEntry (codec : Codec) (name : String) (content : Bytes) : ZipEntry :=
  zipWriteEntry codec
    { name := name, comment := "", method := 8, modified := 0, crc32 := 0,
      compressedSize64 := 0, uncompressedSize := content.length % 2 ^ 32,
      uncompressedSize64 := content.length, externalAttrs := 0 } content

/-- The type of the dispatcher as seen by the archive rebuilders. -/
abbrev TransformFun := St → DeepPath → Bytes → Except Err (FileTransformResult × St)

/-- Embeds the entry loop of TransformTarGzToFile: read each entry fully
(failing if its length disagrees with the header), dispatch on the Deep Path
extended by the entry name, update the header, write the (possibly replaced)
entry and then any sibling entry, and continue with the threaded state.  The
dispatcher is a parameter so that the mutual recursion with TransformFile is
expressed through the fuel of the caller. -/
def transformTarEntriesGo (env : Env) (tf : TransformFun) :
    St → DeepPath → List TarEntry → Except Err (List TarEntry × St)
  | st, _, [] => .ok ([], st)
  | st, tarGzDeepPath, entry :: rest =>
    if Int.ofNat entry.content.length ≠ entry.header.size then
      .error "failed to read entire file"
    else
      match DeepPath.Append tarGzDeepPath entry.header.name with
      | none => .error "cannot append; DeepPath has no space left"
      | some entryPath =>
        match tf st entryPath entry.content with
        | .error e => .error e
        | .ok (transformResult, st1) =>
          let header := transformResult.UpdateTarHeader env.ProgramStartTime entry.header
          let newFileContent := transformResult.newFile.getD entry.content
          match WriteTarEntry header newFileContent with
          | .error e => .error e
          | .ok written =>
            match
              (match transformResult.siblingFile with
               | none => Except.ok [written]
               | some sib =>
                 match WriteTarEntry
                     (siblingTarHeader env.ProgramStartTime header
                       transformResult.siblingFileName sib) sib with
                 | .error e => .error e
                 | .ok sibWritten => .ok [written, sibWritten]) with
            | .error e => .error e
            | .ok group =>
              match transformTarEntriesGo env tf st1 tarGzDeepPath rest with
              | .error e => .error e
              | .ok (restOut, st2) => .ok (group ++ restOut, st2)

/-- Embeds the entry loop of TransformZipToFile: dispatch each entry on the
extended Deep Path; an unchanged entry is copied raw with its original
header, a replaced entry is recompressed under the updated header, and a
sibling entry is appended right after its primary through Create. -/
def transformZipEntriesGo (env : Env) (tf : TransformFun) :
    St → DeepPath → List ZipEntry → Except Err (List ZipEntry × St)
  | st, _, [] => .ok ([], st)
  | st, zipDeepPath, zipEntry :: rest =>
    match DeepPath.Append zipDeepPath zipEntry.header.name with
    | none => .error "cannot append; DeepPath has no space left"
    | some entryPath =>
      match tf st entryPath zipEntry.content with
      | .error e => .error e
      | .ok (transformResult, st1) =>
        let header := transformResult.UpdateZipHeader env.ProgramStartTime zipEntry.header
        let primary : ZipEntry :=
          match transformResult.newFile with
          | none => { header := header, content := zipEntry.content, raw := zipEntry.raw }
          | some nf => zipWriteEntry env.codec header nf
        let siblings : List ZipEntry :=
          match transformResult.siblingFile with
          | none => []
          | some sib =>
            [zipCreateEntry env.codec
              (filepathJoin (filepathDir zipEntry.header.name) transformResult.siblingFileName)
              sib]
        match transformZipEntriesGo env tf st1 zipDeepPath rest with
        | .error e => .error e
        | .ok (restOut, st2) => .ok (primary :: (siblings ++ restOut), st2)

/-- Embeds TransformTarGzToFile with the recursive dispatcher abstracted:
gunzip and tar-decode the source (failing on corrupt data), transform every
entry, and gzip/tar-encode the result. -/
def TransformTarGzToFileGo (env : Env) (tf : TransformFun) (st : St)
    (tarGzDeepPath : DeepPath) (sourceFile : Bytes) : Except Err (Bytes × St) :=
  match env.codec.gunzipTar sourceFile with
  | none => .error "invalid gzip or tar data"
  | some entries =>
    match transformTarEntriesGo env tf st tarGzDeepPath entries with
    | .error e => .error e
    | .ok (outEntries, st2) => .ok (env.codec.gzipTar outEntries, st2)

/-- Embeds TransformTarGz with the recursive dispatcher abstracted: rebuild
into a buffer and wrap the buffer as a replacement result. -/
def TransformTarGzGo (env : Env) (tf : TransformFun) (st : St)
    (tarGzDeepPath : DeepPath) (sourceFile : Bytes) :
    Except Err (FileTransformResult × St) :=
  match TransformTarGzToFileGo env tf st tarGzDeepPath sourceFile with
  | .error e => .error e
  | .ok (destinationFileContent, st2) =>
    .ok ({ newFile := some destinationFileContent, siblingFile := none,
           siblingFileName := "" }, st2)

/-- Embeds TransformZipToFile with the recursive dispatcher abstracted: parse
the in-memory buffer (failing on corrupt data), transform every entry, and
serialise the new archive. -/
def TransformZipToFileGo (env : Env) (tf : TransformFun) (st : St)
    (zipDeepPath : DeepPath) (sourceFile : Bytes) : Except Err (Bytes × St) :=
  match env.codec.unzip sourceFile with
  | none => .error "invalid zip data"
  | some entries =>
    match transformZipEntriesGo env tf st zipDeepPath entries with
    | .error e => .error e
    | .ok (outEntries, st2) => .ok (env.codec.zipUp outEntries, st2)

/-- Embeds TransformZip with the recursive dispatcher abstracted. -/
def TransformZipGo (env : Env) (tf : TransformFun) (st : St)
    (zipDeepPath : DeepPath) (sourceFile : Bytes) :
    Except Err (FileTransformResult × St) :=
  match TransformZipToFileGo env tf st zipDeepPath sourceFile with
  | .error e => .error e
  | .ok (destinationFileContent, st2) =>
    .ok ({ newFile := some destinationFileContent, siblingFile := none,
           siblingFileName := "" }, st2)

/-- Embeds TransformFile, the archive transform dispatcher.  The fuel
argument bounds the archive-nesting recursion depth (in the Go code the
recursion is bounded because extending a full DeepPath is fatal); every
recursive call into an archive's entries spends one unit.  Control flow
follows the source: the two archive-suffix checks come first; otherwise the
registry is consulted (a missing key is the zero value NoTransform); for a
real signing operation the SHA-256 digest of the content keys the
TransformCache, where a stored result with either field non-nil is a hit that
consumes the registry entry; on a miss the signer runs, the registry entry is
consumed and the result is stored under the digest. -/
def TransformFile (env : Env) : Nat → St → DeepPath → Bytes →
    Except Err (FileTransformResult × St)
  | 0, _, _, _ => .error "archive nesting too deep"
  | fuel + 1, st, deepPath, file =>
    if PathLooksLikeTarGz (DeepPath.Last deepPath) then
      TransformTarGzGo env (TransformFile env fuel) st deepPath file
    else if PathLooksLikeZip (DeepPath.Last deepPath) then
      TransformZipGo env (TransformFile env fuel) st deepPath file
    else
      let transformType := (lookupA st.filesToTransform deepPath).getD .NoTransform
      let fileHash := env.sha256 file
      let cachedTransform :=
        (lookupA st.TransformCache fileHash).getD FileTransformResult.zeroValue
      if transformType ≠ FileTransformType.NoTransform ∧
          (cachedTransform.newFile ≠ none ∨ cachedTransform.siblingFile ≠ none) then
        .ok (cachedTransform,
             { st with filesToTransform := eraseA st.filesToTransform deepPath })
      else
        match transformType with
        | .NoTransform => .ok (NoOpTransform, st)
        | .AppleCodesign =>
          match AppleCodesignTransform env st.signCount (DeepPath.Last deepPath) file with
          | .error e => .error e
          | .ok transform =>
            .ok (transform,
                 { filesToTransform := eraseA st.filesToTransform deepPath,
                   TransformCache := insertA st.TransformCache fileHash transform,
                   signCount := st.signCount + 1,
                   signTrace := st.signTrace ++
                     [⟨deepPath, FileTransformType.AppleCodesign, file⟩] })
        | .GPGSign =>
          match GPGSignTransform env st.signCount (DeepPath.Last deepPath) file with
          | .error e => .error e
          | .ok transform =>
            .ok (transform,
                 { filesToTransform := eraseA st.filesToTransform deepPath,
                   TransformCache := insertA st.TransformCache fileHash transform,
                   signCount := st.signCount + 1,
                   signTrace := st.signTrace ++
                     [⟨deepPath, FileTransformType.GPGSign, file⟩] })
        | .MicrosoftOsslsigncode =>
          match MicrosoftOsslsigncodeTransform env st.signCount file with
          | .error e => .error e
          | .ok transform =>
            .ok (transform,
                 { filesToTransform := eraseA st.filesToTransform deepPath,
                   TransformCache := insertA st.TransformCache fileHash transform,
                   signCount := st.signCount + 1,
                   signTrace := st.signTrace ++
                     [⟨deepPath, FileTransformType.MicrosoftOsslsigncode, file⟩] })

/-- Embeds TransformTarGz (the recursive dispatcher instantiated). -/
def TransformTarGz (env : Env) (fuel : Nat) (st : St) (tarGzDeepPath : DeepPath)
    (sourceFile : Bytes) : Except Err (FileTransformResult × St) :=
  TransformTarGzGo env (TransformFile env fuel) st tarGzDeepPath sourceFile

/-- Embeds TransformTarGzToFile (the recursive dispatcher instantiated). -/
def TransformTarGzToFile (env : Env) (fuel : Nat) (st : St) (tarGzDeepPath : DeepPath)
    (sourceFile : Bytes) : Except Err (Bytes × St) :=
  TransformTarGzToFileGo env (TransformFile env fuel) st tarGzDeepPath sourceFile

/-- Embeds TransformZip (the recursive dispatcher instantiated). -/
def TransformZip (env : Env) (fuel : Nat) (st : St) (zipDeepPath : DeepPath)
    (sourceFile : Bytes) : Except Err (FileTransformResult × St) :=
  TransformZipGo env (TransformFile env fuel) st zipDeepPath sourceFile

/-- Embeds TransformZipToFile (the recursive dispatcher instantiated). -/
def TransformZipToFile (env : Env) (fuel : Nat) (st : St) (zipDeepPath : DeepPath)
    (sourceFile : Bytes) : Except Err (Bytes × St) :=
  TransformZipToFileGo env (TransformFile env fuel) st zipDeepPath sourceFile

/-- Embeds CheckUnsignedFiles: log every path still in the registry and
return an error when any remained.  The returned list is the log output. -/
def CheckUnsignedFiles (filesToTransform : List (DeepPath × FileTransformType)) :
    List DeepPath × Option Err :=
  let loop := filesToTransform.foldl
    (fun (acc : List DeepPath × Bool) kv => (acc.1 ++ [kv.1], true)) ([], false)
  (loop.1, if loop.2 then some "one or more files were not signed" else none)

/-- The zero value of a SHA256Hash ([32]byte), produced by a Go map read on a
missing key. -/
def zeroHash : SHA256Hash :=
  List.replicate 32 0

/-- The destination-tree deep hash the double-signing check reads for a
source path: a Go map access that yields the zero hash for a path absent
from the destination map. -/
def destHashOf (destinationHashes : List (DeepPath × SHA256Hash)) (path : DeepPath) :
    SHA256Hash :=
  (lookupA destinationHashes path).getD zeroHash

/-- Insert into a hash-keyed set (a Go map to bool): record the value once,
keeping first-insertion order. -/
def addToSet (m : List (SHA256Hash × List SHA256Hash)) (k : SHA256Hash)
    (v : SHA256Hash) : List (SHA256Hash × List SHA256Hash) :=
  match m with
  | [] => [(k, [v])]
  | (k0, vs) :: rest =>
    if k0 = k then (k0, if v ∈ vs then vs else vs ++ [v]) :: rest
    else (k0, vs) :: addToSet rest k v

/-- Append a path to the list kept for a hash key (Go append on a map of
slices). -/
def appendAt (m : List (SHA256Hash × List DeepPath)) (k : SHA256Hash) (v : DeepPath) :
    List (SHA256Hash × List DeepPath) :=
  match m with
  | [] => [(k, [v])]
  | (k0, vs) :: rest =>
    if k0 = k then (k0, vs ++ [v]) :: rest
    else (k0, vs) :: appendAt rest k v

/-- The representative path prettyPrintBadConversion picks for a destination
hash: element 0 of destinationHashToPaths for that hash. -/
def repPath (destinationHashToPaths : List (SHA256Hash × List DeepPath))
    (h : SHA256Hash) : DeepPath :=
  ((lookupA destinationHashToPaths h).getD []).headD (NewDeepPath "")

/-- The (path, previousPath) pairs prettyPrintBadConversion logs: one pair
for each destination hash after the first. -/
def adjacentPairs (paths : List DeepPath) : List (DeepPath × DeepPath) :=
  match paths with
  | [] => []
  | x :: rest => rest.zip (x :: rest)

/-- The reporting loop of CheckDoubleSigning: walk every source-hash group
and, when a group saw more than one distinct destination hash, log the
consecutive representative-path pairs. -/
def collectPairs (destinationHashToPaths : List (SHA256Hash × List DeepPath)) :
    List (SHA256Hash × List SHA256Hash) → List (DeepPath × DeepPath)
  | [] => []
  | kv :: rest =>
    (if kv.2.length > 1 then adjacentPairs (kv.2.map (repPath destinationHashToPaths))
     else []) ++ collectPairs destinationHashToPaths rest

/-- Embeds CheckDoubleSigning, lines 204-252.  The two DeepHashDirectory
walks are I/O against the filesystem; their outputs — the deep path-to-hash
maps of the source and destination trees — are taken as inputs here.  For
every source path the destination hash is looked up (zero hash when absent),
destination hashes are grouped by source hash, and a source hash with more
than one distinct destination hash is a detected bug: the offending
representative path pairs are logged (returned as the first component) and a
single error is returned. -/
def sourceToDestinationHashes (sourceDirHashes destinationDirHashes :
    List (DeepPath × SHA256Hash)) : List (SHA256Hash × List SHA256Hash) :=
  sourceDirHashes.foldl
    (fun m pr => addToSet m pr.2 (destHashOf destinationDirHashes pr.1)) []

def destinationHashToPaths (sourceDirHashes destinationDirHashes :
    List (DeepPath × SHA256Hash)) : List (SHA256Hash × List DeepPath) :=
  sourceDirHashes.foldl
    (fun m pr => appendAt m (destHashOf destinationDirHashes pr.1) pr.1) []

def CheckDoubleSigning (sourceDirHashes destinationDirHashes : List (DeepPath × SHA256Hash)) :
    List (DeepPath × DeepPath) × Option Err :=
  let reported := collectPairs
    (destinationHashToPaths sourceDirHashes destinationDirHashes)
    (sourceToDestinationHashes sourceDirHashes destinationDirHashes)
  let detectedBug := (sourceToDestinationHashes sourceDirHashes destinationDirHashes).any
    (fun kv => kv.2.length > 1)
  (reported, if detectedBug then some "bug detected in sign-release.go" else none)

/-! ## Shared concrete instances used by witnesses -/

/-- A concrete plain tar entry used by witness archives. -/
def exTarEntry : TarEntry :=
  { header :=
      { typeflag := 0, name := "quick-lint-js/bin/quick-lint-js", linkname := "",
        size := 2, mode := 0o755, uid := 10, gid := 20, uname := "u", gname := "g",
        modTime := 1, accessTime := 1, changeTime := 1, format := TarFormat.ustar },
    content := [1, 2] }

/-- A concrete plain zip entry used by witness archives. -/
def exZipEntry : ZipEntry :=
  { header :=
      { name := "bin/quick-lint-js.data", comment := "", method := 8, modified := 1,
        crc32 := 2, compressedSize64 := 1, uncompressedSize := 2,
        uncompressedSize64 := 2, externalAttrs := 0 },
    content := [1, 2], raw := [1, 2] }

/-- A concrete codec for witnesses: the byte string [7] is the one valid
tar.gz (holding exTarEntry) and [8] the one valid zip (holding exZipEntry). -/
def exCodec : Codec :=
  { gunzipTar := fun b => if b = [7] then some [exTarEntry] else none,
    gzipTar := fun es => if es = [exTarEntry] then [7] else [9],
    unzip := fun b => if b = [8] then some [exZipEntry] else none,
    zipUp := fun es => if es = [exZipEntry] then [8] else [10],
    deflate := fun _ b => b,
    crc32 := fun b => b.length }

/-- Concrete always-succeeding signers for witnesses, tagging their output so
distinct backends produce distinct bytes. -/
def exSigners : Signers :=
  { codesign := fun _ b => .ok (0 :: b),
    gpgDetachSign := fun _ b => .ok (1 :: b),
    osslsigncode := fun _ b => .ok (2 :: b) }

/-- A concrete environment for witnesses; the hash function is injective so
the cache behaves like the real SHA-256 on distinct contents. -/
def exEnv : Env :=
  { sha256 := fun b => b, ProgramStartTime := 5, codec := exCodec, signers := exSigners }

/-- A concrete state with one registered path and an empty cache. -/
def exStPlain : St :=
  { filesToTransform := [(NewDeepPath2 "manual/windows.zip" "bin/quick-lint-js.exe",
      FileTransformType.MicrosoftOsslsigncode)],
    TransformCache := [], signCount := 0, signTrace := [] }

/-! ## C9: DeepPath.Append -/

/-- C9: Append on a Deep Path with an unused slot returns a new path equal to
the input except that the child occupies the first unused slot (the input is
never mutated — Append copies its receiver, which the purely functional
embedding reflects); on a full path it fails fatally instead of returning. -/
theorem append_first_unused_slot (p : DeepPath) (c : String) :
    (p.part0 = "" → p.Append c = some { p with part0 := c }) ∧
    (p.part0 ≠ "" → p.part1 = "" → p.Append c = some { p with part1 := c }) ∧
    (p.part0 ≠ "" → p.part1 ≠ "" → p.part2 = "" → p.Append c = some { p with part2 := c }) ∧
    (p.part0 ≠ "" → p.part1 ≠ "" → p.part2 ≠ "" → p.Append c = none) := by
  refine ⟨?_, ?_, ?_, ?_⟩ <;> intros <;> simp [DeepPath.Append, *]

/-- Witness for C9 at concrete paths: appending into the last free slot and
failing on a full path. -/
theorem append_first_unused_slot_witness :
    DeepPath.Append ⟨"a.nupkg", "b.zip", ""⟩ "bin/q.exe" =
      some ⟨"a.nupkg", "b.zip", "bin/q.exe"⟩ ∧
    DeepPath.Append ⟨"a.nupkg", "b.zip", "bin/q.exe"⟩ "deeper" = none :=
  ⟨(append_first_unused_slot ⟨"a.nupkg", "b.zip", ""⟩ "bin/q.exe").2.2.1
      (by decide) (by decide) (by decide),
   (append_first_unused_slot ⟨"a.nupkg", "b.zip", "bin/q.exe"⟩ "deeper").2.2.2
      (by decide) (by decide) (by decide)⟩

/-! ## C6: CheckUnsignedFiles -/

theorem checkUnsignedFiles_loop (reg : List (DeepPath × FileTransformType))
    (acc : List DeepPath × Bool) :
    reg.foldl (fun (acc : List DeepPath × Bool) kv => (acc.1 ++ [kv.1], true)) acc =
      (acc.1 ++ reg.map Prod.fst, acc.2 || !reg.isEmpty) := by
  induction reg generalizing acc with
  | nil => simp
  | cons kv rest ih => simp [ih, List.append_assoc]

/-- C6: CheckUnsignedFiles returns an error exactly when the registry is
non-empty; every remaining Deep Path is individually reported; an empty
registry yields nil. -/
theorem check_unsigned_files_spec (reg : List (DeepPath × FileTransformType)) :
    ((CheckUnsignedFiles reg).2.isSome = true ↔ reg ≠ []) ∧
    (∀ p t, (p, t) ∈ reg → p ∈ (CheckUnsignedFiles reg).1) ∧
    (reg = [] → (CheckUnsignedFiles reg).2 = none) := by
  refine ⟨?_, ?_, ?_⟩
  · cases reg with
    | nil => simp [CheckUnsignedFiles]
    | cons kv rest => simp [CheckUnsignedFiles, checkUnsignedFiles_loop]
  · intro p t hmem
    have : p ∈ reg.map Prod.fst := List.mem_map.mpr ⟨(p, t), hmem, rfl⟩
    simpa [CheckUnsignedFiles, checkUnsignedFiles_loop] using this
  · intro h
    subst h
    simp [CheckUnsignedFiles]

/-- Witness for C6 at a concrete one-entry registry and the empty registry. -/
theorem check_unsigned_files_spec_witness :
    ((CheckUnsignedFiles [(NewDeepPath "manual/linux.tar.gz",
        FileTransformType.GPGSign)]).2.isSome = true) ∧
    NewDeepPath "manual/linux.tar.gz" ∈
      (CheckUnsignedFiles [(NewDeepPath "manual/linux.tar.gz",
        FileTransformType.GPGSign)]).1 ∧
    (CheckUnsignedFiles ([] : List (DeepPath × FileTransformType))).2 = none :=
  ⟨(check_unsigned_files_spec [(NewDeepPath "manual/linux.tar.gz",
      FileTransformType.GPGSign)]).1.mpr (by decide),
   (check_unsigned_files_spec [(NewDeepPath "manual/linux.tar.gz",
      FileTransformType.GPGSign)]).2.1 (NewDeepPath "manual/linux.tar.gz")
      FileTransformType.GPGSign (by decide),
   (check_unsigned_files_spec []).2.2 rfl⟩

/-! ## C7: unregistered non-archive paths pass through untouched -/

/-- C7: for a Deep Path whose last segment matches no archive suffix and
which is absent from the registry (the missing key reads as NoTransform),
TransformFile returns the unchanged result and the state — registry, cache
and signer instrumentation — is returned exactly as given: the cache is
neither read into the result nor written. -/
theorem unregistered_leaf_unchanged (env : Env) (fuel : Nat) (st : St) (p : DeepPath)
    (b : Bytes) (htgz : PathLooksLikeTarGz (DeepPath.Last p) = false)
    (hzip : PathLooksLikeZip (DeepPath.Last p) = false)
    (hreg : lookupA st.filesToTransform p = none) :
    TransformFile env (fuel + 1) st p b = .ok (NoOpTransform, st) := by
  simp [TransformFile, htgz, hzip, hreg]

/-- Witness for C7 at a concrete unregistered plain path. -/
theorem unregistered_leaf_unchanged_witness :
    TransformFile exEnv 1 exStPlain (NewDeepPath "docs/README.md") [3] =
      .ok (NoOpTransform, exStPlain) :=
  unregistered_leaf_unchanged exEnv 0 exStPlain (NewDeepPath "docs/README.md") [3]
    (by decide) (by decide) (by decide)

/-! ## C8: header updates (frame properties) -/

/-- A concrete zip header for the truncation counterexample. -/
def exZipHeader : ZipHeader :=
  { name := "bin/quick-lint-js.exe", comment := "", method := 8, modified := 1,
    crc32 := 7, compressedSize64 := 3, uncompressedSize := 4,
    uncompressedSize64 := 4, externalAttrs := 0 }

/-- A transform result whose replacement content is 2^32 bytes long. -/
def hugeResult : FileTransformResult :=
  { newFile := some (List.replicate (2 ^ 32) 0), siblingFile := none,
    siblingFileName := "" }

/-- Counterexample to C8 as stated: for a replacement of length 2^32 the
32-bit uncompressed-size field is not set to the new length — the uint32
conversion truncates it modulo 2^32 (here to 0). -/
theorem update_zip_header_truncates :
    (hugeResult.newFile.getD []).length = 2 ^ 32 ∧
    (hugeResult.UpdateZipHeader 5 exZipHeader).uncompressedSize ≠ 2 ^ 32 := by
  have key : ∀ l : Bytes, l.length = 2 ^ 32 →
      (FileTransformResult.UpdateZipHeader
        { newFile := some l, siblingFile := none, siblingFileName := "" }
        5 exZipHeader).uncompressedSize ≠ 2 ^ 32 := by
    intro l hl
    show l.length % 2 ^ 32 ≠ 2 ^ 32
    rw [hl, Nat.mod_self]
    exact (pow_pos (by norm_num : (0 : ℕ) < 2) 32).ne
  have keyLen : ∀ l : Bytes, l.length = 2 ^ 32 →
      ((some l : Option Bytes).getD []).length = 2 ^ 32 := by
    intro l hl
    simpa using hl
  exact ⟨keyLen _ (List.length_replicate _ _), key _ (List.length_replicate _ _)⟩

/-- C8 (amended): UpdateTarHeader and UpdateZipHeader change header fields
only when the result carries replacement bytes — the tar size becomes the
replacement length and the modification time the process-start timestamp,
with access/change times additionally set only for the GNU and PAX formats;
the zip modification time becomes the process-start timestamp, the 64-bit
uncompressed size the new length and the 32-bit uncompressed size the new
length reduced modulo 2^32.  Every other field, and the whole header when
the result is unchanged, is preserved. -/
theorem update_headers_frame (r : FileTransformResult) (pst : Time)
    (ht : TarHeader) (hz : ZipHeader) :
    (r.newFile = none →
      r.UpdateTarHeader pst ht = ht ∧ r.UpdateZipHeader pst hz = hz) ∧
    (∀ nf, r.newFile = some nf →
      (r.UpdateTarHeader pst ht).size = Int.ofNat nf.length ∧
      (r.UpdateTarHeader pst ht).modTime = pst ∧
      ((ht.format = TarFormat.gnu ∨ ht.format = TarFormat.pax) →
        (r.UpdateTarHeader pst ht).accessTime = pst ∧
        (r.UpdateTarHeader pst ht).changeTime = pst) ∧
      (¬(ht.format = TarFormat.gnu ∨ ht.format = TarFormat.pax) →
        (r.UpdateTarHeader pst ht).accessTime = ht.accessTime ∧
        (r.UpdateTarHeader pst ht).changeTime = ht.changeTime) ∧
      (r.UpdateTarHeader pst ht).typeflag = ht.typeflag ∧
      (r.UpdateTarHeader pst ht).name = ht.name ∧
      (r.UpdateTarHeader pst ht).linkname = ht.linkname ∧
      (r.UpdateTarHeader pst ht).mode = ht.mode ∧
      (r.UpdateTarHeader pst ht).uid = ht.uid ∧
      (r.UpdateTarHeader pst ht).gid = ht.gid ∧
      (r.UpdateTarHeader pst ht).uname = ht.uname ∧
      (r.UpdateTarHeader pst ht).gname = ht.gname ∧
      (r.UpdateTarHeader pst ht).format = ht.format ∧
      (r.UpdateZipHeader pst hz).modified = pst ∧
      (r.UpdateZipHeader pst hz).uncompressedSize = nf.length % 2 ^ 32 ∧
      (r.UpdateZipHeader pst hz).uncompressedSize64 = nf.length ∧
      (r.UpdateZipHeader pst hz).name = hz.name ∧
      (r.UpdateZipHeader pst hz).comment = hz.comment ∧
      (r.UpdateZipHeader pst hz).method = hz.method ∧
      (r.UpdateZipHeader pst hz).crc32 = hz.crc32 ∧
      (r.UpdateZipHeader pst hz).compressedSize64 = hz.compressedSize64 ∧
      (r.UpdateZipHeader pst hz).externalAttrs = hz.externalAttrs) := by
  constructor
  · intro h
    simp [FileTransformResult.UpdateTarHeader, FileTransformResult.UpdateZipHeader, h]
  · intro nf h
    by_cases hf : ht.format = TarFormat.gnu ∨ ht.format = TarFormat.pax <;>
      simp [FileTransformResult.UpdateTarHeader, FileTransformResult.UpdateZipHeader, h, hf]

/-- Witness for C8 (amended) at a concrete GNU-format tar header and a
replacement of length 3. -/
theorem update_headers_frame_witness :
    let r : FileTransformResult :=
      { newFile := some [1, 2, 3], siblingFile := none, siblingFileName := "" }
    let ht : TarHeader :=
      { typeflag := 0, name := "bin/q", linkname := "", size := 2, mode := 0o755,
        uid := 1, gid := 2, uname := "u", gname := "g", modTime := 1, accessTime := 1,
        changeTime := 1, format := TarFormat.gnu }
    (r.UpdateTarHeader 5 ht).size = Int.ofNat ([1, 2, 3] : Bytes).length ∧
    (r.UpdateTarHeader 5 ht).modTime = 5 ∧
    (r.UpdateTarHeader 5 ht).accessTime = 5 ∧
    (r.UpdateZipHeader 5 exZipHeader).uncompressedSize = 3 ∧
    (r.UpdateZipHeader 5 exZipHeader).crc32 = exZipHeader.crc32 := by
  intro r ht
  have h := (update_headers_frame r 5 ht exZipHeader).2 [1, 2, 3] rfl
  obtain ⟨hsize, hmod, hacc, _, _, _, _, _, _, _, _, _, _, _, hzs, _, _, _, _, hcrc, _⟩ := h
  exact ⟨hsize, hmod, (hacc (Or.inl rfl)).1, hzs, hcrc⟩

/-! ## C2: CheckDoubleSigning -/

/-- The destination-hash set recorded for a source hash. -/
def groupOf (m : List (SHA256Hash × List SHA256Hash)) (h : SHA256Hash) :
    List SHA256Hash :=
  (lookupA m h).getD []

theorem groupOf_addToSet_same (m : List (SHA256Hash × List SHA256Hash))
    (k v : SHA256Hash) :
    groupOf (addToSet m k v) k =
      if v ∈ groupOf m k then groupOf m k else groupOf m k ++ [v] := by
  induction m with
  | nil => simp [groupOf, addToSet, lookupA]
  | cons kv rest ih =>
    obtain ⟨k0, vs⟩ := kv
    by_cases hk : k0 = k
    · simp [groupOf, addToSet, lookupA, hk]
    · simpa [groupOf, addToSet, lookupA, hk] using ih

theorem groupOf_addToSet_ne (m : List (SHA256Hash × List SHA256Hash))
    (k k' v : SHA256Hash) (h : k' ≠ k) :
    groupOf (addToSet m k v) k' = groupOf m k' := by
  induction m with
  | nil => simp [groupOf, addToSet, lookupA, Ne.symm h]
  | cons kv rest ih =>
    obtain ⟨k0, vs⟩ := kv
    by_cases hk : k0 = k
    · have hk' : k0 ≠ k' := by rw [hk]; exact Ne.symm h
      simp [groupOf, addToSet, lookupA, hk, hk', Ne.symm h]
    · by_cases hk'' : k0 = k'
      · simp [groupOf, addToSet, lookupA, hk, hk'', h]
      · simpa [groupOf, addToSet, lookupA, hk, hk''] using ih

theorem mem_groupOf_addToSet (m : List (SHA256Hash × List SHA256Hash))
    (k v h v' : SHA256Hash) :
    v' ∈ groupOf (addToSet m k v) h ↔
      v' ∈ groupOf m h ∨ (h = k ∧ v' = v) := by
  by_cases hk : h = k
  · subst hk
    rw [groupOf_addToSet_same]
    by_cases hv : v ∈ groupOf m h
    · simp only [if_pos hv]
      constructor
      · exact fun hm => Or.inl hm
      · rintro (hm | ⟨-, rfl⟩)
        · exact hm
        · exact hv
    · simp [if_neg hv, List.mem_append]
  · rw [groupOf_addToSet_ne m k h v hk]
    simp [hk]

theorem groupOf_addToSet_nodup (m : List (SHA256Hash × List SHA256Hash))
    (k v : SHA256Hash) (hm : ∀ h, (groupOf m h).Nodup) :
    ∀ h, (groupOf (addToSet m k v) h).Nodup := by
  intro h
  by_cases hk : h = k
  · subst hk
    rw [groupOf_addToSet_same]
    by_cases hv : v ∈ groupOf m h
    · simpa [if_pos hv] using hm h
    · simp only [if_neg hv]
      exact List.Nodup.append (hm h) (List.nodup_singleton v)
        (by simpa using hv)
  · rw [groupOf_addToSet_ne m k h v hk]
    exact hm h

theorem mem_keys_addToSet (m : List (SHA256Hash × List SHA256Hash))
    (k v x : SHA256Hash) (hx : x ∈ (addToSet m k v).map Prod.fst) :
    x ∈ m.map Prod.fst ∨ x = k := by
  induction m with
  | nil =>
    simp [addToSet] at hx
    exact Or.inr hx
  | cons kv rest ih =>
    obtain ⟨k0, vs⟩ := kv
    by_cases hk : k0 = k
    · have heq : (addToSet ((k0, vs) :: rest) k v).map Prod.fst
          = k0 :: rest.map Prod.fst := by
        simp [addToSet, hk]
      rw [heq] at hx
      rcases List.mem_cons.mp hx with hx | hx
      · exact Or.inr (hx.trans hk)
      · exact Or.inl (List.mem_cons.mpr (Or.inr hx))
    · have heq : (addToSet ((k0, vs) :: rest) k v).map Prod.fst
          = k0 :: (addToSet rest k v).map Prod.fst := by
        simp [addToSet, hk]
      rw [heq] at hx
      rcases List.mem_cons.mp hx with hx | hx
      · exact Or.inl (List.mem_cons.mpr (Or.inl hx))
      · rcases ih hx with hy | hy
        · exact Or.inl (List.mem_cons.mpr (Or.inr hy))
        · exact Or.inr hy

theorem keysNodup_addToSet (m : List (SHA256Hash × List SHA256Hash))
    (k v : SHA256Hash) (hm : (m.map Prod.fst).Nodup) :
    ((addToSet m k v).map Prod.fst).Nodup := by
  induction m with
  | nil => simp [addToSet]
  | cons kv rest ih =>
    obtain ⟨k0, vs⟩ := kv
    rw [List.map_cons, List.nodup_cons] at hm
    by_cases hk : k0 = k
    · have heq : (addToSet ((k0, vs) :: rest) k v).map Prod.fst
          = k0 :: rest.map Prod.fst := by
        simp [addToSet, hk]
      rw [heq, List.nodup_cons]
      exact hm
    · have heq : (addToSet ((k0, vs) :: rest) k v).map Prod.fst
          = k0 :: (addToSet rest k v).map Prod.fst := by
        simp [addToSet, hk]
      rw [heq, List.nodup_cons]
      refine ⟨?_, ih hm.2⟩
      intro hmem
      rcases mem_keys_addToSet rest k v k0 hmem with hy | hy
      · exact hm.1 hy
      · exact hk hy

theorem mem_of_lookupA {α β : Type} [DecidableEq α] (m : List (α × β)) (k : α) (v : β)
    (h : lookupA m k = some v) : (k, v) ∈ m := by
  induction m with
  | nil => simp [lookupA] at h
  | cons kv rest ih =>
    obtain ⟨k0, v0⟩ := kv
    by_cases hk : k0 = k
    · subst hk
      simp [lookupA] at h
      exact h ▸ List.mem_cons_self (k0, v0) rest
    · simp [lookupA, hk] at h
      exact List.mem_cons.mpr (Or.inr (ih h))

theorem lookupA_of_mem_nodupKeys {α β : Type} [DecidableEq α]
    (m : List (α × β)) (hnd : (m.map Prod.fst).Nodup) (k : α) (v : β)
    (h : (k, v) ∈ m) : lookupA m k = some v := by
  induction m with
  | nil => simp at h
  | cons kv rest ih =>
    obtain ⟨k0, v0⟩ := kv
    rw [List.map_cons, List.nodup_cons] at hnd
    rcases List.mem_cons.mp h with he | hm
    · rw [Prod.mk.injEq] at he
      simp [lookupA, he.1.symm, he.2]
    · have hk : k0 ≠ k := by
        intro heq
        exact hnd.1 (by rw [heq]; exact List.mem_map.mpr ⟨(k, v), hm, rfl⟩)
      simp [lookupA, hk, ih hnd.2 hm]

theorem length_gt_one_of_two_mem {γ : Type} (l : List γ) (a b : γ) (ha : a ∈ l)
    (hb : b ∈ l) (hab : a ≠ b) : 1 < l.length := by
  cases l with
  | nil => cases ha
  | cons x t =>
    cases t with
    | nil =>
      rw [List.mem_singleton] at ha hb
      exact absurd (ha.trans hb.symm) hab
    | cons y t2 =>
      simp only [List.length_cons]
      omega

theorem exists_two_of_nodup_length {γ : Type} (l : List γ) (hnd : l.Nodup)
    (hl : 1 < l.length) : ∃ a b, a ∈ l ∧ b ∈ l ∧ a ≠ b := by
  match l with
  | [] => simp at hl
  | [x] => simp at hl
  | x :: y :: t =>
    rw [List.nodup_cons] at hnd
    refine ⟨x, y, List.mem_cons_self _ _, List.mem_cons.mpr (Or.inr (List.mem_cons_self _ _)), ?_⟩
    intro he
    exact hnd.1 (he ▸ List.mem_cons_self y t)

theorem mem_groupOf_s2dFold (dst : List (DeepPath × SHA256Hash)) :
    ∀ (src : List (DeepPath × SHA256Hash)) (m : List (SHA256Hash × List SHA256Hash))
      (h v' : SHA256Hash),
      (v' ∈ groupOf (src.foldl (fun m pr => addToSet m pr.2 (destHashOf dst pr.1)) m) h ↔
        v' ∈ groupOf m h ∨ ∃ p, (p, h) ∈ src ∧ destHashOf dst p = v') := by
  intro src
  induction src with
  | nil =>
    intro m h v'
    simp
  | cons pr rest ih =>
    intro m h v'
    rw [List.foldl_cons, ih, mem_groupOf_addToSet]
    constructor
    · rintro ((hm | ⟨hh, hv⟩) | ⟨p, hp, hd⟩)
      · exact Or.inl hm
      · subst hh
        exact Or.inr ⟨pr.1, List.mem_cons.mpr (Or.inl Prod.mk.eta), hv.symm⟩
      · exact Or.inr ⟨p, List.mem_cons.mpr (Or.inr hp), hd⟩
    · rintro (hm | ⟨p, hp, hd⟩)
      · exact Or.inl (Or.inl hm)
      · rcases List.mem_cons.mp hp with he | hm2
        · refine Or.inl (Or.inr ⟨?_, ?_⟩)
          · rw [← he]
          · rw [← he]
            exact hd.symm
        · exact Or.inr ⟨p, hm2, hd⟩

theorem groupsNodup_s2dFold (dst : List (DeepPath × SHA256Hash)) :
    ∀ (src : List (DeepPath × SHA256Hash)) (m : List (SHA256Hash × List SHA256Hash)),
      (∀ h, (groupOf m h).Nodup) →
      ∀ h, (groupOf (src.foldl (fun m pr => addToSet m pr.2 (destHashOf dst pr.1)) m) h).Nodup := by
  intro src
  induction src with
  | nil => intro m hm h; simpa using hm h
  | cons pr rest ih =>
    intro m hm h
    rw [List.foldl_cons]
    exact ih _ (groupOf_addToSet_nodup m pr.2 (destHashOf dst pr.1) hm) h

theorem keysNodup_s2dFold (dst : List (DeepPath × SHA256Hash)) :
    ∀ (src : List (DeepPath × SHA256Hash)) (m : List (SHA256Hash × List SHA256Hash)),
      (m.map Prod.fst).Nodup →
      ((src.foldl (fun m pr => addToSet m pr.2 (destHashOf dst pr.1)) m).map Prod.fst).Nodup := by
  intro src
  induction src with
  | nil => intro m hm; simpa using hm
  | cons pr rest ih =>
    intro m hm
    rw [List.foldl_cons]
    exact ih _ (keysNodup_addToSet m pr.2 (destHashOf dst pr.1) hm)

theorem adjacentPairs_length (paths : List DeepPath) :
    (adjacentPairs paths).length = paths.length - 1 := by
  cases paths with
  | nil => simp [adjacentPairs]
  | cons x rest =>
    simp only [adjacentPairs, List.length_zip, List.length_cons]
    omega

theorem collectPairs_length (dp : List (SHA256Hash × List DeepPath))
    (m : List (SHA256Hash × List SHA256Hash)) :
    (collectPairs dp m).length = (m.map (fun kv => kv.2.length - 1)).sum := by
  induction m with
  | nil => simp [collectPairs]
  | cons kv rest ih =>
    by_cases hl : kv.2.length > 1
    · simp [collectPairs, hl, ih, adjacentPairs_length]
    · have h0 : kv.2.length - 1 = 0 := by omega
      simp [collectPairs, hl, ih, h0]

theorem collectPairs_eq_nil (dp : List (SHA256Hash × List DeepPath))
    (m : List (SHA256Hash × List SHA256Hash))
    (hm : ∀ kv ∈ m, ¬ kv.2.length > 1) : collectPairs dp m = [] := by
  induction m with
  | nil => rfl
  | cons kv rest ih =>
    have h1 : ¬ kv.2.length > 1 := hm kv (List.mem_cons_self _ _)
    simp [collectPairs, h1,
      ih (fun kv2 hk => hm kv2 (List.mem_cons.mpr (Or.inr hk)))]

theorem collectPairs_ne_nil (dp : List (SHA256Hash × List DeepPath))
    (m : List (SHA256Hash × List SHA256Hash)) (kv : SHA256Hash × List SHA256Hash)
    (hmem : kv ∈ m) (hl : 1 < kv.2.length) : collectPairs dp m ≠ [] := by
  have hle : kv.2.length - 1 ≤ (m.map (fun kv => kv.2.length - 1)).sum :=
    List.single_le_sum (fun x _ => Nat.zero_le x) _ (List.mem_map.mpr ⟨kv, hmem, rfl⟩)
  have hpos : 0 < (collectPairs dp m).length := by
    rw [collectPairs_length]
    omega
  exact List.ne_nil_of_length_pos hpos

/-- C2 (amended): CheckDoubleSigning fails exactly when two source paths
share a source digest but their destination digests differ (a destination
digest being the zero hash for a path missing from the destination map);
when it fails, at least one representative violating path pair has been
reported before the single error is returned — the code logs one pair per
additional distinct destination digest in each violating group, not every
violating path pair — and when no violating pair exists it returns nil and
reports nothing. -/
theorem check_double_signing_spec (src dst : List (DeepPath × SHA256Hash)) :
    ((CheckDoubleSigning src dst).2.isSome = true ↔
      ∃ p1 p2 h, (p1, h) ∈ src ∧ (p2, h) ∈ src ∧
        destHashOf dst p1 ≠ destHashOf dst p2) ∧
    ((CheckDoubleSigning src dst).2.isSome = true →
      (CheckDoubleSigning src dst).1 ≠ []) ∧
    ((CheckDoubleSigning src dst).2 = none → (CheckDoubleSigning src dst).1 = []) := by
  have hfst : (CheckDoubleSigning src dst).1 =
      collectPairs (destinationHashToPaths src dst) (sourceToDestinationHashes src dst) := rfl
  have hsnd : (CheckDoubleSigning src dst).2 =
      (if (sourceToDestinationHashes src dst).any (fun kv => kv.2.length > 1) then
        some "bug detected in sign-release.go" else none) := rfl
  have hmemall : ∀ h v', v' ∈ groupOf (sourceToDestinationHashes src dst) h ↔
      ∃ p, (p, h) ∈ src ∧ destHashOf dst p = v' := by
    intro h v'
    have := mem_groupOf_s2dFold dst src [] h v'
    simpa [groupOf, lookupA, sourceToDestinationHashes] using this
  have hgnodup : ∀ h, (groupOf (sourceToDestinationHashes src dst) h).Nodup := by
    intro h
    exact groupsNodup_s2dFold dst src []
      (by intro h2; simp [groupOf, lookupA]) h
  have hknodup : ((sourceToDestinationHashes src dst).map Prod.fst).Nodup :=
    keysNodup_s2dFold dst src [] (by simp)
  have hany : (sourceToDestinationHashes src dst).any (fun kv => kv.2.length > 1) = true ↔
      ∃ p1 p2 h, (p1, h) ∈ src ∧ (p2, h) ∈ src ∧
        destHashOf dst p1 ≠ destHashOf dst p2 := by
    constructor
    · intro ha
      rcases List.any_eq_true.mp ha with ⟨kv, hkv, hdec⟩
      have hlen : 1 < kv.2.length := by simpa using hdec
      have hgrp : groupOf (sourceToDestinationHashes src dst) kv.1 = kv.2 := by
        simp [groupOf,
          lookupA_of_mem_nodupKeys (sourceToDestinationHashes src dst) hknodup kv.1 kv.2
            (by simpa using hkv)]
      rcases exists_two_of_nodup_length kv.2 (hgrp ▸ hgnodup kv.1) hlen with
        ⟨a, b, ha2, hb2, hab⟩
      rcases (hmemall kv.1 a).mp (hgrp ▸ ha2) with ⟨p1, hp1, hd1⟩
      rcases (hmemall kv.1 b).mp (hgrp ▸ hb2) with ⟨p2, hp2, hd2⟩
      exact ⟨p1, p2, kv.1, hp1, hp2, by rw [hd1, hd2]; exact hab⟩
    · rintro ⟨p1, p2, h, hp1, hp2, hne⟩
      have ha2 : destHashOf dst p1 ∈ groupOf (sourceToDestinationHashes src dst) h :=
        (hmemall h _).mpr ⟨p1, hp1, rfl⟩
      have hb2 : destHashOf dst p2 ∈ groupOf (sourceToDestinationHashes src dst) h :=
        (hmemall h _).mpr ⟨p2, hp2, rfl⟩
      have hlen : 1 < (groupOf (sourceToDestinationHashes src dst) h).length :=
        length_gt_one_of_two_mem _ _ _ ha2 hb2 hne
      cases hlk : lookupA (sourceToDestinationHashes src dst) h with
      | none =>
        rw [groupOf, hlk] at hlen
        simp at hlen
      | some vs =>
        have hmem : (h, vs) ∈ sourceToDestinationHashes src dst :=
          mem_of_lookupA _ _ _ hlk
        have hvs : 1 < vs.length := by
          rw [groupOf, hlk] at hlen
          simpa using hlen
        exact List.any_eq_true.mpr ⟨(h, vs), hmem, by simpa using hvs⟩
  refine ⟨?_, ?_, ?_⟩
  · rw [hsnd]
    by_cases hb : (sourceToDestinationHashes src dst).any (fun kv => kv.2.length > 1) = true
    · simp only [hb, if_pos]
      simp only [Option.isSome_some, true_iff]
      exact hany.mp hb
    · have hb' : (sourceToDestinationHashes src dst).any (fun kv => kv.2.length > 1) = false :=
        Bool.eq_false_iff.mpr hb
      simp only [hb', Bool.false_eq_true, if_neg, Option.isSome_none]
      constructor
      · intro hcontra
        cases hcontra
      · intro hex
        exact absurd (hany.mpr hex) hb
  · intro hs
    rw [hsnd] at hs
    by_cases hb : (sourceToDestinationHashes src dst).any (fun kv => kv.2.length > 1) = true
    · rcases List.any_eq_true.mp hb with ⟨kv, hkv, hdec⟩
      rw [hfst]
      exact collectPairs_ne_nil _ _ kv hkv (by simpa using hdec)
    · have hb' : (sourceToDestinationHashes src dst).any (fun kv => kv.2.length > 1) = false :=
        Bool.eq_false_iff.mpr hb
      rw [hb'] at hs
      simp at hs
  · intro hs
    rw [hsnd] at hs
    by_cases hb : (sourceToDestinationHashes src dst).any (fun kv => kv.2.length > 1) = true
    · rw [hb] at hs
      simp at hs
    · have hb' : (sourceToDestinationHashes src dst).any (fun kv => kv.2.length > 1) = false :=
        Bool.eq_false_iff.mpr hb
      rw [hfst]
      refine collectPairs_eq_nil _ _ ?_
      intro kv hkv
      have := List.any_eq_false.mp hb' kv hkv
      simpa using this

/-- The source-tree deep hashes of the counterexample: three paths with one
shared content digest. -/
def exSrcHashes : List (DeepPath × SHA256Hash) :=
  [(NewDeepPath "a.exe", [1]), (NewDeepPath "b.exe", [1]), (NewDeepPath "c.exe", [1])]

/-- The destination-tree deep hashes of the counterexample: three pairwise
distinct digests for the three paths. -/
def exDstHashes : List (DeepPath × SHA256Hash) :=
  [(NewDeepPath "a.exe", [2]), (NewDeepPath "b.exe", [3]), (NewDeepPath "c.exe", [4])]

/-- Counterexample to C2 as stated: with three byte-identical source files
converted to three pairwise different destination files, the pair
(a.exe, c.exe) violates the determinism invariant, yet neither (a.exe, c.exe)
nor (c.exe, a.exe) appears among the reported pairs — only consecutive
representative pairs are logged, so not every violating path pair is
reported. -/
theorem check_double_signing_counterexample :
    ((CheckDoubleSigning exSrcHashes exDstHashes).2.isSome = true) ∧
    (NewDeepPath "a.exe", [1]) ∈ exSrcHashes ∧
    (NewDeepPath "c.exe", [1]) ∈ exSrcHashes ∧
    destHashOf exDstHashes (NewDeepPath "a.exe") ≠
      destHashOf exDstHashes (NewDeepPath "c.exe") ∧
    (NewDeepPath "a.exe", NewDeepPath "c.exe") ∉ (CheckDoubleSigning exSrcHashes exDstHashes).1 ∧
    (NewDeepPath "c.exe", NewDeepPath "a.exe") ∉ (CheckDoubleSigning exSrcHashes exDstHashes).1 := by
  decide

/-- Witness for C2 (amended) at concrete hash maps: a violating input yields
an error with a non-empty report, a clean input yields nil. -/
theorem check_double_signing_spec_witness :
    (CheckDoubleSigning exSrcHashes exDstHashes).2.isSome = true ∧
    (CheckDoubleSigning exSrcHashes exDstHashes).1 ≠ [] ∧
    (CheckDoubleSigning [(NewDeepPath "a.exe", [1])] exDstHashes).1 = [] := by
  have h1 : (CheckDoubleSigning exSrcHashes exDstHashes).2.isSome = true :=
    (check_double_signing_spec exSrcHashes exDstHashes).1.mpr
      ⟨NewDeepPath "a.exe", NewDeepPath "c.exe", [1], by decide, by decide, by decide⟩
  refine ⟨h1, (check_double_signing_spec exSrcHashes exDstHashes).2.1 h1, ?_⟩
  exact (check_double_signing_spec [(NewDeepPath "a.exe", [1])] exDstHashes).2.2 (by decide)

/-! ## C1: content-addressed caching -/

/-- C1: processing the same bytes twice through TransformFile at Deep Paths
the registry maps to real signing operations yields the identical Transform
Result both times and invokes a signer exactly once for the content's
digest: the first call (digest not yet cached) signs once, stores the result
in the TransformCache keyed by the digest, and records exactly one signer
invocation; the second call returns the cached result and changes nothing
but the consumed registry entry — no further signer invocation. -/
theorem transform_cache_hit_equivalence (env : Env) (fuel : Nat) (st0 : St)
    (p1 p2 : DeepPath) (b : Bytes) (t1 t2 : FileTransformType)
    (r1 : FileTransformResult) (st1 : St)
    (h1tgz : PathLooksLikeTarGz (DeepPath.Last p1) = false)
    (h1zip : PathLooksLikeZip (DeepPath.Last p1) = false)
    (h2tgz : PathLooksLikeTarGz (DeepPath.Last p2) = false)
    (h2zip : PathLooksLikeZip (DeepPath.Last p2) = false)
    (hreg1 : lookupA st0.filesToTransform p1 = some t1)
    (ht1 : t1 ≠ FileTransformType.NoTransform)
    (hcache : lookupA st0.TransformCache (env.sha256 b) = none)
    (hrun : TransformFile env (fuel + 1) st0 p1 b = .ok (r1, st1))
    (hreg2 : lookupA st1.filesToTransform p2 = some t2)
    (ht2 : t2 ≠ FileTransformType.NoTransform) :
    lookupA st1.TransformCache (env.sha256 b) = some r1 ∧
    st1.signCount = st0.signCount + 1 ∧
    st1.signTrace = st0.signTrace ++ [⟨p1, t1, b⟩] ∧
    TransformFile env (fuel + 1) st1 p2 b =
      .ok (r1, { st1 with filesToTransform := eraseA st1.filesToTransform p2 }) := by
  cases t1 with
  | NoTransform => exact absurd rfl ht1
  | AppleCodesign =>
    cases hsig : env.signers.codesign st0.signCount b with
    | error e =>
      simp [TransformFile, h1tgz, h1zip, hreg1, hcache, FileTransformResult.zeroValue,
        AppleCodesignTransform, hsig] at hrun
    | ok s =>
      simp only [TransformFile, h1tgz, h1zip, hreg1, hcache,
        FileTransformResult.zeroValue, AppleCodesignTransform, hsig] at hrun
      simp [Except.ok.injEq, Prod.mk.injEq] at hrun
      obtain ⟨hr, hst⟩ := hrun
      subst hr
      subst hst
      refine ⟨lookupA_insert _ _ _, rfl, rfl, ?_⟩
      simp [TransformFile, h2tgz, h2zip, hreg2, ht2, lookupA_insert]
  | GPGSign =>
    cases hsig : env.signers.gpgDetachSign st0.signCount b with
    | error e =>
      simp [TransformFile, h1tgz, h1zip, hreg1, hcache, FileTransformResult.zeroValue,
        GPGSignTransform, hsig] at hrun
    | ok s =>
      simp only [TransformFile, h1tgz, h1zip, hreg1, hcache,
        FileTransformResult.zeroValue, GPGSignTransform, hsig] at hrun
      simp [Except.ok.injEq, Prod.mk.injEq] at hrun
      obtain ⟨hr, hst⟩ := hrun
      subst hr
      subst hst
      refine ⟨lookupA_insert _ _ _, rfl, rfl, ?_⟩
      simp [TransformFile, h2tgz, h2zip, hreg2, ht2, lookupA_insert]
  | MicrosoftOsslsigncode =>
    cases hsig : env.signers.osslsigncode st0.signCount b with
    | error e =>
      simp [TransformFile, h1tgz, h1zip, hreg1, hcache, FileTransformResult.zeroValue,
        MicrosoftOsslsigncodeTransform, hsig] at hrun
    | ok s =>
      simp only [TransformFile, h1tgz, h1zip, hreg1, hcache,
        FileTransformResult.zeroValue, MicrosoftOsslsigncodeTransform, hsig] at hrun
      simp [Except.ok.injEq, Prod.mk.injEq] at hrun
      obtain ⟨hr, hst⟩ := hrun
      subst hr
      subst hst
      refine ⟨lookupA_insert _ _ _, rfl, rfl, ?_⟩
      simp [TransformFile, h2tgz, h2zip, hreg2, ht2, lookupA_insert]

/-- A concrete state with two GPG-registered plain paths and an empty cache. -/
def exStTwo : St :=
  { filesToTransform := [(NewDeepPath "bin/q1", FileTransformType.GPGSign),
                         (NewDeepPath "bin/q2", FileTransformType.GPGSign)],
    TransformCache := [], signCount := 0, signTrace := [] }

/-- The transform result the concrete GPG signer produces for content [3]. -/
def exGpgResult : FileTransformResult :=
  { newFile := none, siblingFile := some [1, 3], siblingFileName := "q1.asc" }

/-- The state after the first concrete signing call. -/
def exStAfter : St :=
  { filesToTransform := [(NewDeepPath "bin/q2", FileTransformType.GPGSign)],
    TransformCache := [([3], exGpgResult)],
    signCount := 1,
    signTrace := [⟨NewDeepPath "bin/q1", FileTransformType.GPGSign, [3]⟩] }

/-- Witness for C1: the concrete content [3] signed at bin/q1 then at bin/q2
hits the cache the second time with the identical result. -/
theorem transform_cache_hit_equivalence_witness :
    lookupA exStAfter.TransformCache (exEnv.sha256 [3]) = some exGpgResult ∧
    exStAfter.signCount = exStTwo.signCount + 1 ∧
    exStAfter.signTrace = exStTwo.signTrace ++
      [⟨NewDeepPath "bin/q1", FileTransformType.GPGSign, [3]⟩] ∧
    TransformFile exEnv 1 exStAfter (NewDeepPath "bin/q2") [3] =
      .ok (exGpgResult,
        { exStAfter with
          filesToTransform := eraseA exStAfter.filesToTransform (NewDeepPath "bin/q2") }) :=
  transform_cache_hit_equivalence exEnv 0 exStTwo
    (NewDeepPath "bin/q1") (NewDeepPath "bin/q2") [3]
    FileTransformType.GPGSign FileTransformType.GPGSign exGpgResult exStAfter
    (by decide) (by decide) (by decide) (by decide) (by decide) (by decide)
    (by decide) (by rfl) (by decide) (by decide)

/-! ## Dispatcher invariants (C3, C4, C10) -/

/-- Cache well-formedness: every stored transform result is a signer output,
which replaces the file or adds a sibling — never neither (so the dispatcher
hit-test recognises it) and never both. -/
def CacheWF (st : St) : Prop :=
  ∀ h r, lookupA st.TransformCache h = some r →
    ((r.newFile ≠ none ∨ r.siblingFile ≠ none) ∧
     (r.newFile = none ∨ r.siblingFile = none))

/-- State evolution invariant of one dispatcher-reachable step: registry
entries at archive-suffixed Deep Paths survive, signer events are appended
only at non-archive paths, and cache well-formedness is preserved. -/
def StateOK (st st' : St) : Prop :=
  (∀ q, (PathLooksLikeTarGz (DeepPath.Last q) = true ∨
         PathLooksLikeZip (DeepPath.Last q) = true) →
     lookupA st'.filesToTransform q = lookupA st.filesToTransform q) ∧
  (∀ ev, ev ∈ st'.signTrace → ev ∈ st.signTrace ∨
     (PathLooksLikeTarGz (DeepPath.Last ev.path) = false ∧
      PathLooksLikeZip (DeepPath.Last ev.path) = false)) ∧
  (CacheWF st → CacheWF st')

/-- Result invariant of one dispatcher call: the state evolves well, the
result never carries both a replacement and a sibling, and a fully trivial
result can only be the NoTransform pass-through, which leaves the state
untouched (it is never served from the cache). -/
def StepOK (st st' : St) (r : FileTransformResult) : Prop :=
  StateOK st st' ∧
  (CacheWF st → r.newFile = none ∨ r.siblingFile = none) ∧
  (CacheWF st → r.newFile = none → r.siblingFile = none →
    st' = st ∧ r = NoOpTransform)

/-- Every successful call of a dispatcher satisfies StepOK. -/
def TFGood (tf : TransformFun) : Prop :=
  ∀ st p b r st', tf st p b = .ok (r, st') → StepOK st st' r

theorem stateOK_refl (st : St) : StateOK st st :=
  ⟨fun _ _ => rfl, fun ev hev => Or.inl hev, fun h => h⟩

theorem stateOK_trans {st1 st2 st3 : St} (h12 : StateOK st1 st2)
    (h23 : StateOK st2 st3) : StateOK st1 st3 := by
  refine ⟨?_, ?_, ?_⟩
  · intro q hq
    rw [h23.1 q hq, h12.1 q hq]
  · intro ev hev
    rcases h23.2.1 ev hev with hm | hp
    · rcases h12.2.1 ev hm with hm2 | hp2
      · exact Or.inl hm2
      · exact Or.inr hp2
    · exact Or.inr hp
  · intro hwf
    exact h23.2.2 (h12.2.2 hwf)

theorem transformTarEntriesGo_stateOK (env : Env) (tf : TransformFun)
    (htf : TFGood tf) :
    ∀ (es : List TarEntry) (st : St) (p : DeepPath) (out : List TarEntry) (st' : St),
      transformTarEntriesGo env tf st p es = .ok (out, st') → StateOK st st' := by
  intro es
  induction es with
  | nil =>
    intro st p out st' h
    simp only [transformTarEntriesGo, Except.ok.injEq, Prod.mk.injEq] at h
    obtain ⟨-, hst⟩ := h
    subst hst
    exact stateOK_refl st
  | cons e rest ih =>
    intro st p out st' h
    by_cases hsz : (e.content.length : Int) = e.header.size
    · cases hap : DeepPath.Append p e.header.name with
      | none => simp [transformTarEntriesGo, hsz, hap] at h
      | some q =>
        cases htf2 : tf st q e.content with
        | error er => simp [transformTarEntriesGo, hsz, hap, htf2] at h
        | ok pr =>
          obtain ⟨tr, st1⟩ := pr
          have hstep : StateOK st st1 := (htf st q e.content tr st1 htf2).1
          cases hw : WriteTarEntry
              (tr.UpdateTarHeader env.ProgramStartTime e.header)
              (tr.newFile.getD e.content) with
          | error er =>
            simp [transformTarEntriesGo, hsz, hap, htf2, hw] at h
          | ok written =>
            cases hsib : tr.siblingFile with
            | none =>
              cases hrec : transformTarEntriesGo env tf st1 p rest with
              | error er =>
                simp [transformTarEntriesGo, hsz, hap, htf2, hw, hsib, hrec] at h
              | ok pr2 =>
                obtain ⟨restOut, st2⟩ := pr2
                simp [transformTarEntriesGo, hsz, hap, htf2, hw, hsib, hrec] at h
                obtain ⟨-, hst⟩ := h
                subst hst
                exact stateOK_trans hstep (ih st1 p restOut _ hrec)
            | some sib =>
              cases hw2 : WriteTarEntry
                  (siblingTarHeader env.ProgramStartTime
                    (tr.UpdateTarHeader env.ProgramStartTime e.header)
                    tr.siblingFileName sib) sib with
              | error er =>
                simp [transformTarEntriesGo, hsz, hap, htf2, hw, hsib, hw2] at h
              | ok sibWritten =>
                cases hrec : transformTarEntriesGo env tf st1 p rest with
                | error er =>
                  simp [transformTarEntriesGo, hsz, hap, htf2, hw, hsib, hw2, hrec] at h
                | ok pr2 =>
                  obtain ⟨restOut, st2⟩ := pr2
                  simp [transformTarEntriesGo, hsz, hap, htf2, hw, hsib, hw2, hrec] at h
                  obtain ⟨-, hst⟩ := h
                  subst hst
                  exact stateOK_trans hstep (ih st1 p restOut _ hrec)
    · simp [transformTarEntriesGo, hsz] at h

theorem transformZipEntriesGo_stateOK (env : Env) (tf : TransformFun)
    (htf : TFGood tf) :
    ∀ (es : List ZipEntry) (st : St) (p : DeepPath) (out : List ZipEntry) (st' : St),
      transformZipEntriesGo env tf st p es = .ok (out, st') → StateOK st st' := by
  intro es
  induction es with
  | nil =>
    intro st p out st' h
    simp only [transformZipEntriesGo, Except.ok.injEq, Prod.mk.injEq] at h
    obtain ⟨-, hst⟩ := h
    subst hst
    exact stateOK_refl st
  | cons e rest ih =>
    intro st p out st' h
    cases hap : DeepPath.Append p e.header.name with
    | none => simp [transformZipEntriesGo, hap] at h
    | some q =>
      cases htf2 : tf st q e.content with
      | error er => simp [transformZipEntriesGo, hap, htf2] at h
      | ok pr =>
        obtain ⟨tr, st1⟩ := pr
        have hstep : StateOK st st1 := (htf st q e.content tr st1 htf2).1
        cases hrec : transformZipEntriesGo env tf st1 p rest with
        | error er =>
          simp [transformZipEntriesGo, hap, htf2, hrec] at h
        | ok pr2 =>
          obtain ⟨restOut, st2⟩ := pr2
          simp [transformZipEntriesGo, hap, htf2, hrec] at h
          obtain ⟨-, hst⟩ := h
          subst hst
          exact stateOK_trans hstep (ih st1 p restOut _ hrec)

theorem signer_step_stepOK (st : St) (p : DeepPath) (t : FileTransformType)
    (b : Bytes) (fh : SHA256Hash) (tr : FileTransformResult)
    (htgzF : PathLooksLikeTarGz (DeepPath.Last p) = false)
    (hzipF : PathLooksLikeZip (DeepPath.Last p) = false)
    (hsh1 : tr.newFile ≠ none ∨ tr.siblingFile ≠ none)
    (hsh2 : tr.newFile = none ∨ tr.siblingFile = none) :
    StepOK st
      { filesToTransform := eraseA st.filesToTransform p,
        TransformCache := insertA st.TransformCache fh tr,
        signCount := st.signCount + 1,
        signTrace := st.signTrace ++ [⟨p, t, b⟩] } tr := by
  refine ⟨⟨?_, ?_, ?_⟩, ?_, ?_⟩
  · intro q hq
    have hqp : q ≠ p := by
      intro he
      subst he
      rcases hq with hq | hq
      · rw [htgzF] at hq
        cases hq
      · rw [hzipF] at hq
        cases hq
    exact lookupA_erase_ne st.filesToTransform p q hqp
  · intro ev hev
    rcases List.mem_append.mp hev with hev | hev
    · exact Or.inl hev
    · rw [List.mem_singleton] at hev
      subst hev
      exact Or.inr ⟨htgzF, hzipF⟩
  · intro hwf h r2 hlk
    by_cases hh : h = fh
    · subst hh
      rw [lookupA_insert] at hlk
      injection hlk with he
      subst he
      exact ⟨hsh1, hsh2⟩
    · rw [lookupA_insert_ne _ _ _ _ hh] at hlk
      exact hwf h r2 hlk
  · intro _
    exact hsh2
  · intro _ hnew hsib
    rcases hsh1 with h1 | h1
    · exact absurd hnew h1
    · exact absurd hsib h1

theorem cache_hit_stepOK (st : St) (p : DeepPath) (fh : SHA256Hash)
    (r0 : FileTransformResult)
    (htgzF : PathLooksLikeTarGz (DeepPath.Last p) = false)
    (hzipF : PathLooksLikeZip (DeepPath.Last p) = false)
    (hlk : lookupA st.TransformCache fh = some r0) :
    StepOK st { st with filesToTransform := eraseA st.filesToTransform p } r0 := by
  refine ⟨⟨?_, ?_, ?_⟩, ?_, ?_⟩
  · intro q hq
    have hqp : q ≠ p := by
      intro he
      subst he
      rcases hq with hq | hq
      · rw [htgzF] at hq
        cases hq
      · rw [hzipF] at hq
        cases hq
    exact lookupA_erase_ne st.filesToTransform p q hqp
  · intro ev hev
    exact Or.inl hev
  · intro hwf
    exact hwf
  · intro hwf
    exact (hwf fh r0 hlk).2
  · intro hwf hnew hsib
    rcases (hwf fh r0 hlk).1 with h1 | h1
    · exact absurd hnew h1
    · exact absurd hsib h1

theorem transformFile_good (env : Env) : ∀ fuel, TFGood (TransformFile env fuel) := by
  intro fuel
  induction fuel with
  | zero =>
    intro st p b r st' hrun
    simp [TransformFile] at hrun
  | succ fuel ih =>
    intro st p b r st' hrun
    by_cases htgz : PathLooksLikeTarGz (DeepPath.Last p) = true
    · simp only [TransformFile, htgz, if_true] at hrun
      cases hparse : env.codec.gunzipTar b with
      | none => simp [TransformTarGzGo, TransformTarGzToFileGo, hparse] at hrun
      | some es =>
        cases hloop : transformTarEntriesGo env (TransformFile env fuel) st p es with
        | error er =>
          simp [TransformTarGzGo, TransformTarGzToFileGo, hparse, hloop] at hrun
        | ok pr =>
          obtain ⟨outEs, st2⟩ := pr
          simp [TransformTarGzGo, TransformTarGzToFileGo, hparse, hloop] at hrun
          obtain ⟨hr, hst⟩ := hrun
          subst hst
          subst hr
          refine ⟨transformTarEntriesGo_stateOK env (TransformFile env fuel) ih es st p outEs _ hloop,
            fun _ => Or.inr rfl, fun _ hnew _ => ?_⟩
          simp at hnew
    · have htgzF : PathLooksLikeTarGz (DeepPath.Last p) = false := Bool.eq_false_iff.mpr htgz
      by_cases hzip : PathLooksLikeZip (DeepPath.Last p) = true
      · simp only [TransformFile, htgzF, hzip, Bool.false_eq_true, if_false, if_true] at hrun
        cases hparse : env.codec.unzip b with
        | none => simp [TransformZipGo, TransformZipToFileGo, hparse] at hrun
        | some es =>
          cases hloop : transformZipEntriesGo env (TransformFile env fuel) st p es with
          | error er =>
            simp [TransformZipGo, TransformZipToFileGo, hparse, hloop] at hrun
          | ok pr =>
            obtain ⟨outEs, st2⟩ := pr
            simp [TransformZipGo, TransformZipToFileGo, hparse, hloop] at hrun
            obtain ⟨hr, hst⟩ := hrun
            subst hst
            subst hr
            refine ⟨transformZipEntriesGo_stateOK env (TransformFile env fuel) ih es st p outEs _ hloop,
              fun _ => Or.inr rfl, fun _ hnew _ => ?_⟩
            simp at hnew
      · have hzipF : PathLooksLikeZip (DeepPath.Last p) = false := Bool.eq_false_iff.mpr hzip
        cases hreg : lookupA st.filesToTransform p with
        | none =>
          simp [TransformFile, htgzF, hzipF, hreg] at hrun
          obtain ⟨hr, hst⟩ := hrun
          subst hst
          subst hr
          exact ⟨stateOK_refl st, fun _ => Or.inl rfl, fun _ _ _ => ⟨rfl, rfl⟩⟩
        | some t =>
          by_cases ht : t = FileTransformType.NoTransform
          · subst ht
            simp [TransformFile, htgzF, hzipF, hreg] at hrun
            obtain ⟨hr, hst⟩ := hrun
            subst hst
            subst hr
            exact ⟨stateOK_refl st, fun _ => Or.inl rfl, fun _ _ _ => ⟨rfl, rfl⟩⟩
          · by_cases hcit : ((lookupA st.TransformCache (env.sha256 b)).getD
                FileTransformResult.zeroValue).newFile ≠ none ∨
                ((lookupA st.TransformCache (env.sha256 b)).getD
                FileTransformResult.zeroValue).siblingFile ≠ none
            · cases hc : lookupA st.TransformCache (env.sha256 b) with
              | none =>
                rw [hc] at hcit
                simp [FileTransformResult.zeroValue] at hcit
              | some r0 =>
                rw [hc] at hcit
                simp only [Option.getD_some] at hcit
                simp [TransformFile, htgzF, hzipF, hreg, hc, hcit, ht] at hrun
                obtain ⟨hr, hst⟩ := hrun
                subst hst
                subst hr
                exact cache_hit_stepOK st p (env.sha256 b) _ htgzF hzipF hc
            · cases t with
              | NoTransform => exact absurd rfl ht
              | AppleCodesign =>
                cases hsig : env.signers.codesign st.signCount b with
                | error e =>
                  simp [TransformFile, htgzF, hzipF, hreg, hcit,
                    AppleCodesignTransform, hsig] at hrun
                | ok s =>
                  simp [TransformFile, htgzF, hzipF, hreg, hcit,
                    AppleCodesignTransform, hsig] at hrun
                  obtain ⟨hr, hst⟩ := hrun
                  subst hst
                  subst hr
                  exact signer_step_stepOK st p _ b (env.sha256 b) _ htgzF hzipF
                    (by simp) (by simp)
              | GPGSign =>
                cases hsig : env.signers.gpgDetachSign st.signCount b with
                | error e =>
                  simp [TransformFile, htgzF, hzipF, hreg, hcit,
                    GPGSignTransform, hsig] at hrun
                | ok s =>
                  simp [TransformFile, htgzF, hzipF, hreg, hcit,
                    GPGSignTransform, hsig] at hrun
                  obtain ⟨hr, hst⟩ := hrun
                  subst hst
                  subst hr
                  exact signer_step_stepOK st p _ b (env.sha256 b) _ htgzF hzipF
                    (by simp) (by simp)
              | MicrosoftOsslsigncode =>
                cases hsig : env.signers.osslsigncode st.signCount b with
                | error e =>
                  simp [TransformFile, htgzF, hzipF, hreg, hcit,
                    MicrosoftOsslsigncodeTransform, hsig] at hrun
                | ok s =>
                  simp [TransformFile, htgzF, hzipF, hreg, hcit,
                    MicrosoftOsslsigncodeTransform, hsig] at hrun
                  obtain ⟨hr, hst⟩ := hrun
                  subst hst
                  subst hr
                  exact signer_step_stepOK st p _ b (env.sha256 b) _ htgzF hzipF
                    (by simp) (by simp)

/-! ## C3: archive dispatch priority -/

/-- C3: for a Deep Path whose last segment has a tar+gzip or zip-family
suffix, TransformFile recurses into the corresponding rebuilder (tar+gzip
checked first) and returns its output as a replace result, for every state —
in particular also when that exact Deep Path is registered for a signing
operation; the registry entry at that path survives untouched and no signer
invocation is ever recorded at that path. -/
theorem archive_check_priority (env : Env) (fuel : Nat) (st : St) (p : DeepPath)
    (b : Bytes) :
    (PathLooksLikeTarGz (DeepPath.Last p) = true →
      TransformFile env (fuel + 1) st p b = TransformTarGz env fuel st p b) ∧
    (PathLooksLikeTarGz (DeepPath.Last p) = false →
      PathLooksLikeZip (DeepPath.Last p) = true →
      TransformFile env (fuel + 1) st p b = TransformZip env fuel st p b) ∧
    ((PathLooksLikeTarGz (DeepPath.Last p) = true ∨
      PathLooksLikeZip (DeepPath.Last p) = true) →
      ∀ r st', TransformFile env (fuel + 1) st p b = .ok (r, st') →
        (∃ nb, r.newFile = some nb) ∧ r.siblingFile = none ∧
        lookupA st'.filesToTransform p = lookupA st.filesToTransform p ∧
        (∀ ev, ev ∈ st'.signTrace → ev ∈ st.signTrace ∨ ev.path ≠ p)) := by
  refine ⟨?_, ?_, ?_⟩
  · intro h
    simp [TransformFile, h, TransformTarGz]
  · intro h1 h2
    simp [TransformFile, h1, h2, TransformZip]
  · intro hp r st' hrun
    have hgood := transformFile_good env (fuel + 1) st p b r st' hrun
    have hshape : (∃ nb, r.newFile = some nb) ∧ r.siblingFile = none := by
      by_cases htgz : PathLooksLikeTarGz (DeepPath.Last p) = true
      · simp only [TransformFile, htgz, if_true] at hrun
        cases hparse : env.codec.gunzipTar b with
        | none => simp [TransformTarGzGo, TransformTarGzToFileGo, hparse] at hrun
        | some es =>
          cases hloop : transformTarEntriesGo env (TransformFile env fuel) st p es with
          | error er =>
            simp [TransformTarGzGo, TransformTarGzToFileGo, hparse, hloop] at hrun
          | ok pr =>
            obtain ⟨outEs, st2⟩ := pr
            simp [TransformTarGzGo, TransformTarGzToFileGo, hparse, hloop] at hrun
            obtain ⟨hr, -⟩ := hrun
            subst hr
            exact ⟨⟨_, rfl⟩, rfl⟩
      · have htgzF : PathLooksLikeTarGz (DeepPath.Last p) = false :=
          Bool.eq_false_iff.mpr htgz
        have hzip : PathLooksLikeZip (DeepPath.Last p) = true := by
          rcases hp with hp | hp
          · exact absurd hp htgz
          · exact hp
        simp only [TransformFile, htgzF, hzip, Bool.false_eq_true, if_false, if_true] at hrun
        cases hparse : env.codec.unzip b with
        | none => simp [TransformZipGo, TransformZipToFileGo, hparse] at hrun
        | some es =>
          cases hloop : transformZipEntriesGo env (TransformFile env fuel) st p es with
          | error er =>
            simp [TransformZipGo, TransformZipToFileGo, hparse, hloop] at hrun
          | ok pr =>
            obtain ⟨outEs, st2⟩ := pr
            simp [TransformZipGo, TransformZipToFileGo, hparse, hloop] at hrun
            obtain ⟨hr, -⟩ := hrun
            subst hr
            exact ⟨⟨_, rfl⟩, rfl⟩
    refine ⟨hshape.1, hshape.2, hgood.1.1 p hp, ?_⟩
    intro ev hev
    rcases hgood.1.2.1 ev hev with h | hna
    · exact Or.inl h
    · right
      intro he
      rcases hp with hp | hp
      · rw [he] at hna
        rw [hna.1] at hp
        cases hp
      · rw [he] at hna
        rw [hna.2] at hp
        cases hp

/-- A concrete state in which the archive path itself is registered for
signing: the dispatcher must still treat it as an archive. -/
def exStTarReg : St :=
  { filesToTransform := [(NewDeepPath "dist/a.tar.gz", FileTransformType.GPGSign)],
    TransformCache := [], signCount := 0, signTrace := [] }

/-- The replace result the concrete tar.gz rebuild produces for [7]. -/
def exTarReplace : FileTransformResult :=
  { newFile := some [7], siblingFile := none, siblingFileName := "" }

/-- Witness for C3: the concrete tar.gz [7], at a path that is itself
registered for GPG signing, is rebuilt as a replace result, its registry
entry survives and no signer event is recorded. -/
theorem archive_check_priority_witness :
    (∃ nb, exTarReplace.newFile = some nb) ∧ exTarReplace.siblingFile = none ∧
    lookupA exStTarReg.filesToTransform (NewDeepPath "dist/a.tar.gz") =
      lookupA exStTarReg.filesToTransform (NewDeepPath "dist/a.tar.gz") ∧
    (∀ ev, ev ∈ exStTarReg.signTrace → ev ∈ exStTarReg.signTrace ∨
      ev.path ≠ NewDeepPath "dist/a.tar.gz") :=
  (archive_check_priority exEnv 1 exStTarReg (NewDeepPath "dist/a.tar.gz") [7]).2.2
    (Or.inl (by decide)) exTarReplace exStTarReg (by rfl)

/-! ## C4: transform result shapes -/

/-- Counterexample to C4 as stated: GPGSignTransform returns a result whose
siblingFile is set while newFile is nil — a sibling blob without replacement
bytes, which the claim's three shapes exclude. -/
theorem gpg_sibling_without_replacement :
    GPGSignTransform exEnv 0 "bin/q1" [3] = .ok exGpgResult ∧
    exGpgResult.siblingFile ≠ none ∧ exGpgResult.newFile = none ∧
    ¬ ((exGpgResult.newFile = none ∧ exGpgResult.siblingFile = none) ∨
       (exGpgResult.newFile ≠ none ∧ exGpgResult.siblingFile = none) ∨
       (exGpgResult.newFile ≠ none ∧ exGpgResult.siblingFile ≠ none)) :=
  ⟨by rfl, by decide, by decide, by decide⟩

/-- C4 (amended): every Transform Result produced by the program's
operations has exactly one of three shapes: (a) unchanged with no
replacement bytes and no sibling, (b) replace with new bytes and no sibling,
or (c) sibling-only — a named sibling blob next to the untouched original,
carrying no replacement bytes (detached signatures).  In particular no
result ever carries both replacement bytes and a sibling blob. -/
theorem transform_result_shapes (env : Env) :
    (NoOpTransform.newFile = none ∧ NoOpTransform.siblingFile = none) ∧
    (∀ n path b r, AppleCodesignTransform env n path b = .ok r →
      r.newFile ≠ none ∧ r.siblingFile = none) ∧
    (∀ n path b r, GPGSignTransform env n path b = .ok r →
      r.newFile = none ∧ r.siblingFile ≠ none) ∧
    (∀ n b r, MicrosoftOsslsigncodeTransform env n b = .ok r →
      r.newFile ≠ none ∧ r.siblingFile = none) ∧
    (∀ fuel st p b r st', CacheWF st →
      TransformFile env fuel st p b = .ok (r, st') →
      ((r.newFile = none ∧ r.siblingFile = none) ∨
       (r.newFile ≠ none ∧ r.siblingFile = none) ∨
       (r.newFile = none ∧ r.siblingFile ≠ none))) := by
  refine ⟨⟨rfl, rfl⟩, ?_, ?_, ?_, ?_⟩
  · intro n path b r h
    cases hs : env.signers.codesign n b with
    | error e => simp [AppleCodesignTransform, hs] at h
    | ok s =>
      simp [AppleCodesignTransform, hs] at h
      rw [← h]
      exact ⟨by simp, rfl⟩
  · intro n path b r h
    cases hs : env.signers.gpgDetachSign n b with
    | error e => simp [GPGSignTransform, hs] at h
    | ok s =>
      simp [GPGSignTransform, hs] at h
      rw [← h]
      exact ⟨rfl, by simp⟩
  · intro n b r h
    cases hs : env.signers.osslsigncode n b with
    | error e => simp [MicrosoftOsslsigncodeTransform, hs] at h
    | ok s =>
      simp [MicrosoftOsslsigncodeTransform, hs] at h
      rw [← h]
      exact ⟨by simp, rfl⟩
  · intro fuel st p b r st' hwf hrun
    rcases (transformFile_good env fuel st p b r st' hrun).2.1 hwf with h | h
    · by_cases hs : r.siblingFile = none
      · exact Or.inl ⟨h, hs⟩
      · exact Or.inr (Or.inr ⟨h, hs⟩)
    · by_cases hn : r.newFile = none
      · exact Or.inl ⟨hn, h⟩
      · exact Or.inr (Or.inl ⟨hn, h⟩)

/-- Witness for C4 (amended): the concrete GPG result is sibling-only and
the concrete NoTransform pass-through is unchanged. -/
theorem transform_result_shapes_witness :
    (exGpgResult.newFile = none ∧ exGpgResult.siblingFile ≠ none) ∧
    ((NoOpTransform.newFile = none ∧ NoOpTransform.siblingFile = none) ∨
     (NoOpTransform.newFile ≠ none ∧ NoOpTransform.siblingFile = none) ∨
     (NoOpTransform.newFile = none ∧ NoOpTransform.siblingFile ≠ none)) :=
  ⟨(transform_result_shapes exEnv).2.2.1 0 "bin/q1" [3] exGpgResult (by rfl),
   (transform_result_shapes exEnv).2.2.2.2 1 exStPlain (NewDeepPath "docs/README.md")
     [3] NoOpTransform exStPlain
     (fun h r hx => by simp [exStPlain, lookupA] at hx) (by rfl)⟩

/-! ## C10: cache entries are never trivial -/

/-- C10: under the invariant that every stored cache entry has a non-nil
replacement or sibling (which holds initially — the cache starts empty — and
is preserved by every TransformFile call), the cache-hit test recognises
every stored entry, and an unchanged result is never served from the cache:
a result with neither replacement nor sibling only arises from the
NoTransform pass-through, which returns the state untouched. -/
theorem cache_entries_nontrivial (env : Env) (fuel : Nat) (st : St) (p : DeepPath)
    (b : Bytes) (r : FileTransformResult) (st' : St) (hwf : CacheWF st)
    (hrun : TransformFile env fuel st p b = .ok (r, st')) :
    CacheWF st' ∧
    (∀ h r0, lookupA st.TransformCache h = some r0 →
      (r0.newFile ≠ none ∨ r0.siblingFile ≠ none)) ∧
    (r.newFile = none → r.siblingFile = none → st' = st ∧ r = NoOpTransform) := by
  have hgood := transformFile_good env fuel st p b r st' hrun
  exact ⟨hgood.1.2.2 hwf, fun h r0 hlk => (hwf h r0 hlk).1,
    fun hn hs => hgood.2.2 hwf hn hs⟩

/-- Witness for C10 at a concrete unregistered path: the empty cache is
well-formed, stays well-formed, and the unchanged result left the state
untouched. -/
theorem cache_entries_nontrivial_witness :
    CacheWF exStPlain ∧
    (∀ h r0, lookupA exStPlain.TransformCache h = some r0 →
      (r0.newFile ≠ none ∨ r0.siblingFile ≠ none)) ∧
    (NoOpTransform.newFile = none → NoOpTransform.siblingFile = none →
      exStPlain = exStPlain ∧ NoOpTransform = NoOpTransform) :=
  cache_entries_nontrivial exEnv 1 exStPlain (NewDeepPath "docs/README.md") [3]
    NoOpTransform exStPlain (fun h r hx => by simp [exStPlain, lookupA] at hx) (by rfl)

/-! ## C5: rebuild round-trip -/

/-- The header the tar rebuilder gives a replaced entry: timestamps moved to
the process-start instant (access/change only for formats carrying them) and
the size recomputed from the new content; every other field kept. -/
def tarReplacedHeader (pst : Time) (header : TarHeader) (n : Nat) : TarHeader :=
  let header :=
    if header.format = TarFormat.gnu ∨ header.format = TarFormat.pax then
      { header with accessTime := pst, changeTime := pst }
    else header
  { header with modTime := pst, size := Int.ofNat n }

/-- The header the zip rebuilder gives a replaced entry before compressing:
modification time moved to the process-start instant and the uncompressed
sizes recomputed from the new content; every other field kept. -/
def zipReplacedHeader (pst : Time) (header : ZipHeader) (n : Nat) : ZipHeader :=
  { header with
    modified := pst,
    uncompressedSize := n % 2 ^ 32,
    uncompressedSize64 := n }

/-- The entry the zip rebuilder writes for a replaced entry: the retimed
header, freshly compressed content, and the checksum and compressed size the
writer computes from the data. -/
def zipReplacedEntry (codec : Codec) (pst : Time) (header : ZipHeader) (c : Bytes) :
    ZipEntry :=
  zipWriteEntry codec (zipReplacedHeader pst header c.length) c

theorem updateTar_replace (pst : Time) (h : TarHeader) (c : Bytes) :
    FileTransformResult.UpdateTarHeader
      { newFile := some c, siblingFile := none, siblingFileName := "" } pst h =
      tarReplacedHeader pst h c.length := rfl

theorem updateZip_replace (pst : Time) (h : ZipHeader) (c : Bytes) :
    FileTransformResult.UpdateZipHeader
      { newFile := some c, siblingFile := none, siblingFileName := "" } pst h =
      zipReplacedHeader pst h c.length := rfl

mutual
/-- Entry-list correspondence between an archive and its rebuild when no
entry at any nesting depth is registered: every entry survives in order;
an entry that is not itself an archive is byte-for-byte identical, header
included; an entry that is a nested archive keeps its name and all
non-metadata header fields (only the timestamps and the content-derived
size/checksum fields change, per tarReplacedHeader / zipReplacedEntry) and
its content is the re-serialisation of its own recursively corresponding
entry list. -/
inductive DeepSameTarList (env : Env) : DeepPath → List TarEntry → List TarEntry → Prop where
  | nil (p : DeepPath) : DeepSameTarList env p [] []
  | consLeaf (p : DeepPath) (e : TarEntry) (es es' : List TarEntry) (q : DeepPath) :
      DeepPath.Append p e.header.name = some q →
      PathLooksLikeTarGz (DeepPath.Last q) = false →
      PathLooksLikeZip (DeepPath.Last q) = false →
      DeepSameTarList env p es es' →
      DeepSameTarList env p (e :: es) (e :: es')
  | consTarGz (p : DeepPath) (e : TarEntry) (es es' : List TarEntry) (q : DeepPath)
      (inner inner' : List TarEntry) :
      DeepPath.Append p e.header.name = some q →
      PathLooksLikeTarGz (DeepPath.Last q) = true →
      env.codec.gunzipTar e.content = some inner →
      DeepSameTarList env q inner inner' →
      DeepSameTarList env p es es' →
      DeepSameTarList env p (e :: es)
        (⟨tarReplacedHeader env.ProgramStartTime e.header
            (env.codec.gzipTar inner').length,
          env.codec.gzipTar inner'⟩ :: es')
  | consZip (p : DeepPath) (e : TarEntry) (es es' : List TarEntry) (q : DeepPath)
      (inner inner' : List ZipEntry) :
      DeepPath.Append p e.header.name = some q →
      PathLooksLikeTarGz (DeepPath.Last q) = false →
      PathLooksLikeZip (DeepPath.Last q) = true →
      env.codec.unzip e.content = some inner →
      DeepSameZipList env q inner inner' →
      DeepSameTarList env p es es' →
      DeepSameTarList env p (e :: es)
        (⟨tarReplacedHeader env.ProgramStartTime e.header
            (env.codec.zipUp inner').length,
          env.codec.zipUp inner'⟩ :: es')

/-- Zip-side counterpart of DeepSameTarList. -/
inductive DeepSameZipList (env : Env) : DeepPath → List ZipEntry → List ZipEntry → Prop where
  | nil (p : DeepPath) : DeepSameZipList env p [] []
  | consLeaf (p : DeepPath) (e : ZipEntry) (es es' : List ZipEntry) (q : DeepPath) :
      DeepPath.Append p e.header.name = some q →
      PathLooksLikeTarGz (DeepPath.Last q) = false →
      PathLooksLikeZip (DeepPath.Last q) = false →
      DeepSameZipList env p es es' →
      DeepSameZipList env p (e :: es) (e :: es')
  | consTarGz (p : DeepPath) (e : ZipEntry) (es es' : List ZipEntry) (q : DeepPath)
      (inner inner' : List TarEntry) :
      DeepPath.Append p e.header.name = some q →
      PathLooksLikeTarGz (DeepPath.Last q) = true →
      env.codec.gunzipTar e.content = some inner →
      DeepSameTarList env q inner inner' →
      DeepSameZipList env p es es' →
      DeepSameZipList env p (e :: es)
        (zipReplacedEntry env.codec env.ProgramStartTime e.header
          (env.codec.gzipTar inner') :: es')
  | consZip (p : DeepPath) (e : ZipEntry) (es es' : List ZipEntry) (q : DeepPath)
      (inner inner' : List ZipEntry) :
      DeepPath.Append p e.header.name = some q →
      PathLooksLikeTarGz (DeepPath.Last q) = false →
      PathLooksLikeZip (DeepPath.Last q) = true →
      env.codec.unzip e.content = some inner →
      DeepSameZipList env q inner inner' →
      DeepSameZipList env p es es' →
      DeepSameZipList env p (e :: es)
        (zipReplacedEntry env.codec env.ProgramStartTime e.header
          (env.codec.zipUp inner') :: es')
end

/-- Decides that the entry at name/content under path p, and everything
nested inside it, is outside the transform registry: for a non-archive name
the appended path is unregistered; for an archive name the content parses
and every inner entry is recursively clean (with tar entry sizes consistent,
as the tar loop verifies).  The fuel mirrors the dispatcher's nesting
budget. -/
def cleanEntry (env : Env) (reg : List (DeepPath × FileTransformType)) :
    Nat → DeepPath → String → Bytes → Bool
  | 0, _, _, _ => false
  | fuel + 1, p, name, content =>
    match DeepPath.Append p name with
    | none => false
    | some q =>
      if PathLooksLikeTarGz (DeepPath.Last q) then
        match env.codec.gunzipTar content with
        | none => false
        | some inner =>
          inner.all (fun e =>
            decide ((e.content.length : Int) = e.header.size) &&
            cleanEntry env reg fuel q e.header.name e.content)
      else if PathLooksLikeZip (DeepPath.Last q) then
        match env.codec.unzip content with
        | none => false
        | some inner =>
          inner.all (fun e => cleanEntry env reg fuel q e.header.name e.content)
      else decide (lookupA reg q = none)

/-- All entries of a tar archive at path p are clean and size-consistent. -/
def cleanTarList (env : Env) (reg : List (DeepPath × FileTransformType))
    (fuel : Nat) (p : DeepPath) : List TarEntry → Bool
  | [] => true
  | e :: es =>
    (decide ((e.content.length : Int) = e.header.size) &&
      cleanEntry env reg fuel p e.header.name e.content) &&
    cleanTarList env reg fuel p es

/-- All entries of a zip archive at path p are clean. -/
def cleanZipList (env : Env) (reg : List (DeepPath × FileTransformType))
    (fuel : Nat) (p : DeepPath) : List ZipEntry → Bool
  | [] => true
  | e :: es =>
    cleanEntry env reg fuel p e.header.name e.content &&
    cleanZipList env reg fuel p es

theorem cleanTarList_eq_all (env : Env) (reg : List (DeepPath × FileTransformType))
    (fuel : Nat) (p : DeepPath) (es : List TarEntry) :
    cleanTarList env reg fuel p es =
      es.all (fun e =>
        decide ((e.content.length : Int) = e.header.size) &&
        cleanEntry env reg fuel p e.header.name e.content) := by
  induction es with
  | nil => rfl
  | cons e rest ih => simp [cleanTarList, ih]

theorem cleanZipList_eq_all (env : Env) (reg : List (DeepPath × FileTransformType))
    (fuel : Nat) (p : DeepPath) (es : List ZipEntry) :
    cleanZipList env reg fuel p es =
      es.all (fun e => cleanEntry env reg fuel p e.header.name e.content) := by
  induction es with
  | nil => rfl
  | cons e rest ih => simp [cleanZipList, ih]

/-- The possible outcomes of dispatching one clean entry: unchanged for a
non-archive, or a replace result holding the re-serialisation of a
recursively corresponding entry list. -/
def CleanOutcome (env : Env) (q : DeepPath) (content : Bytes)
    (r : FileTransformResult) : Prop :=
  (PathLooksLikeTarGz (DeepPath.Last q) = false ∧
   PathLooksLikeZip (DeepPath.Last q) = false ∧ r = NoOpTransform) ∨
  (∃ inner inner', PathLooksLikeTarGz (DeepPath.Last q) = true ∧
    env.codec.gunzipTar content = some inner ∧
    DeepSameTarList env q inner inner' ∧
    r = { newFile := some (env.codec.gzipTar inner'), siblingFile := none,
          siblingFileName := "" }) ∨
  (∃ inner inner', PathLooksLikeTarGz (DeepPath.Last q) = false ∧
    PathLooksLikeZip (DeepPath.Last q) = true ∧
    env.codec.unzip content = some inner ∧
    DeepSameZipList env q inner inner' ∧
    r = { newFile := some (env.codec.zipUp inner'), siblingFile := none,
          siblingFileName := "" })

theorem updateTar_noop (pst : Time) (h : TarHeader) :
    FileTransformResult.UpdateTarHeader NoOpTransform pst h = h := rfl

theorem updateZip_noop (pst : Time) (h : ZipHeader) :
    FileTransformResult.UpdateZipHeader NoOpTransform pst h = h := rfl

theorem noOp_newFile : NoOpTransform.newFile = none := rfl

theorem noOp_siblingFile : NoOpTransform.siblingFile = none := rfl

theorem writeTarEntry_ok (h : TarHeader) (c : Bytes)
    (hsz : Int.ofNat c.length = h.size) :
    WriteTarEntry h c = .ok ⟨h, c⟩ := by
  simp only [WriteTarEntry]
  rw [if_pos hsz]

theorem tarReplacedHeader_size (pst : Time) (h : TarHeader) (n : Nat) :
    (tarReplacedHeader pst h n).size = Int.ofNat n := rfl

theorem clean_master (env : Env) : ∀ fuel,
    (∀ st p name content q, DeepPath.Append p name = some q →
      cleanEntry env st.filesToTransform fuel p name content = true →
      ∃ r, TransformFile env fuel st q content = .ok (r, st) ∧
        CleanOutcome env q content r) ∧
    (∀ st p es, cleanTarList env st.filesToTransform fuel p es = true →
      ∃ es2, transformTarEntriesGo env (TransformFile env fuel) st p es = .ok (es2, st) ∧
        DeepSameTarList env p es es2) ∧
    (∀ st p es, cleanZipList env st.filesToTransform fuel p es = true →
      ∃ es2, transformZipEntriesGo env (TransformFile env fuel) st p es = .ok (es2, st) ∧
        DeepSameZipList env p es es2) := by
  intro fuel
  induction fuel with
  | zero =>
    refine ⟨?_, ?_, ?_⟩
    · intro st p name content q hap hclean
      simp [cleanEntry] at hclean
    · intro st p es hclean
      cases es with
      | nil => exact ⟨[], rfl, DeepSameTarList.nil p⟩
      | cons e es2 => simp [cleanTarList, cleanEntry] at hclean
    · intro st p es hclean
      cases es with
      | nil => exact ⟨[], rfl, DeepSameZipList.nil p⟩
      | cons e es2 => simp [cleanZipList, cleanEntry] at hclean
  | succ f ih =>
    obtain ⟨ihE, ihT, ihZ⟩ := ih
    have hE : ∀ st p name content q, DeepPath.Append p name = some q →
        cleanEntry env st.filesToTransform (f + 1) p name content = true →
        ∃ r, TransformFile env (f + 1) st q content = .ok (r, st) ∧
          CleanOutcome env q content r := by
      intro st p name content q hap hclean
      simp only [cleanEntry, hap] at hclean
      by_cases htgz : PathLooksLikeTarGz (DeepPath.Last q) = true
      · cases hparse : env.codec.gunzipTar content with
        | none =>
          simp only [htgz, if_true, hparse, Bool.false_eq_true] at hclean
        | some inner =>
          simp only [htgz, if_true, hparse] at hclean
          rw [← cleanTarList_eq_all] at hclean
          obtain ⟨inner2, hloop, hsame⟩ := ihT st q inner hclean
          refine ⟨_, ?_, Or.inr (Or.inl ⟨inner, inner2, htgz, hparse, hsame, rfl⟩)⟩
          simp only [TransformFile, htgz, if_true, TransformTarGzGo,
            TransformTarGzToFileGo, hparse, hloop]
      · have htgzF : PathLooksLikeTarGz (DeepPath.Last q) = false :=
          Bool.eq_false_iff.mpr htgz
        by_cases hzip : PathLooksLikeZip (DeepPath.Last q) = true
        · cases hparse : env.codec.unzip content with
          | none =>
            simp only [htgzF, Bool.false_eq_true, if_false, hzip, if_true, hparse] at hclean
          | some inner =>
            simp only [htgzF, Bool.false_eq_true, if_false, hzip, if_true, hparse] at hclean
            rw [← cleanZipList_eq_all] at hclean
            obtain ⟨inner2, hloop, hsame⟩ := ihZ st q inner hclean
            refine ⟨_, ?_, Or.inr (Or.inr ⟨inner, inner2, htgzF, hzip, hparse, hsame, rfl⟩)⟩
            simp only [TransformFile, htgzF, Bool.false_eq_true, if_false, hzip, if_true,
              TransformZipGo, TransformZipToFileGo, hparse, hloop]
        · have hzipF : PathLooksLikeZip (DeepPath.Last q) = false :=
            Bool.eq_false_iff.mpr hzip
          simp only [htgzF, Bool.false_eq_true, if_false, hzipF] at hclean
          have hreg : lookupA st.filesToTransform q = none := of_decide_eq_true hclean
          refine ⟨NoOpTransform, ?_, Or.inl ⟨htgzF, hzipF, rfl⟩⟩
          simp [TransformFile, htgzF, hzipF, hreg]
    have hT : ∀ st p es, cleanTarList env st.filesToTransform (f + 1) p es = true →
        ∃ es2, transformTarEntriesGo env (TransformFile env (f + 1)) st p es = .ok (es2, st) ∧
          DeepSameTarList env p es es2 := by
      intro st p es hclean
      induction es with
      | nil => exact ⟨[], rfl, DeepSameTarList.nil p⟩
      | cons e rest ihes =>
        simp only [cleanTarList, Bool.and_eq_true] at hclean
        obtain ⟨⟨hsz, hce⟩, hcl⟩ := hclean
        have hszI : Int.ofNat e.content.length = e.header.size := of_decide_eq_true hsz
        cases hap : DeepPath.Append p e.header.name with
        | none => simp only [cleanEntry, hap, Bool.false_eq_true] at hce
        | some q =>
          obtain ⟨r, hrun, houtc⟩ := hE st p e.header.name e.content q hap hce
          obtain ⟨rest2, hloop2, hsame2⟩ := ihes hcl
          rcases houtc with ⟨hA, hB, hr⟩ | ⟨inner, inner2, htgz, hparse, hsame, hr⟩ |
            ⟨inner, inner2, htgzF2, hzip2, hparse, hsame, hr⟩
          · subst hr
            have hw : WriteTarEntry e.header e.content = .ok ⟨e.header, e.content⟩ :=
              writeTarEntry_ok _ _ hszI
            refine ⟨e :: rest2, ?_,
              DeepSameTarList.consLeaf p e rest rest2 q hap hA hB hsame2⟩
            simp only [transformTarEntriesGo]
            rw [if_neg (not_not_intro hszI)]
            simp only [hap, hrun, updateTar_noop, noOp_newFile, noOp_siblingFile,
              Option.getD_none, hw, hloop2, List.singleton_append]
          · subst hr
            have hw : WriteTarEntry
                (tarReplacedHeader env.ProgramStartTime e.header
                  (env.codec.gzipTar inner2).length)
                (env.codec.gzipTar inner2) = .ok ⟨tarReplacedHeader env.ProgramStartTime
                  e.header (env.codec.gzipTar inner2).length, env.codec.gzipTar inner2⟩ :=
              writeTarEntry_ok _ _ rfl
            refine ⟨_ :: rest2, ?_,
              DeepSameTarList.consTarGz p e rest rest2 q inner inner2 hap htgz hparse
                hsame hsame2⟩
            simp only [transformTarEntriesGo]
            rw [if_neg (not_not_intro hszI)]
            simp only [hap, hrun, updateTar_replace, Option.getD_some, hw, hloop2,
              List.singleton_append]
          · subst hr
            have hw : WriteTarEntry
                (tarReplacedHeader env.ProgramStartTime e.header
                  (env.codec.zipUp inner2).length)
                (env.codec.zipUp inner2) = .ok ⟨tarReplacedHeader env.ProgramStartTime
                  e.header (env.codec.zipUp inner2).length, env.codec.zipUp inner2⟩ :=
              writeTarEntry_ok _ _ rfl
            refine ⟨_ :: rest2, ?_,
              DeepSameTarList.consZip p e rest rest2 q inner inner2 hap htgzF2 hzip2
                hparse hsame hsame2⟩
            simp only [transformTarEntriesGo]
            rw [if_neg (not_not_intro hszI)]
            simp only [hap, hrun, updateTar_replace, Option.getD_some, hw, hloop2,
              List.singleton_append]
    have hZ : ∀ st p es, cleanZipList env st.filesToTransform (f + 1) p es = true →
        ∃ es2, transformZipEntriesGo env (TransformFile env (f + 1)) st p es = .ok (es2, st) ∧
          DeepSameZipList env p es es2 := by
      intro st p es hclean
      induction es with
      | nil => exact ⟨[], rfl, DeepSameZipList.nil p⟩
      | cons e rest ihes =>
        simp only [cleanZipList, Bool.and_eq_true] at hclean
        obtain ⟨hce, hcl⟩ := hclean
        cases hap : DeepPath.Append p e.header.name with
        | none => simp only [cleanEntry, hap, Bool.false_eq_true] at hce
        | some q =>
          obtain ⟨r, hrun, houtc⟩ := hE st p e.header.name e.content q hap hce
          obtain ⟨rest2, hloop2, hsame2⟩ := ihes hcl
          rcases houtc with ⟨hA, hB, hr⟩ | ⟨inner, inner2, htgz, hparse, hsame, hr⟩ |
            ⟨inner, inner2, htgzF2, hzip2, hparse, hsame, hr⟩
          · subst hr
            refine ⟨e :: rest2, ?_,
              DeepSameZipList.consLeaf p e rest rest2 q hap hA hB hsame2⟩
            simp only [transformZipEntriesGo, hap, hrun, updateZip_noop, noOp_newFile,
              noOp_siblingFile, hloop2, List.nil_append]
          · subst hr
            refine ⟨_ :: rest2, ?_,
              DeepSameZipList.consTarGz p e rest rest2 q inner inner2 hap htgz hparse
                hsame hsame2⟩
            simp only [transformZipEntriesGo, hap, hrun, updateZip_replace,
              zipReplacedEntry, hloop2, List.nil_append]
          · subst hr
            refine ⟨_ :: rest2, ?_,
              DeepSameZipList.consZip p e rest rest2 q inner inner2 hap htgzF2 hzip2
                hparse hsame hsame2⟩
            simp only [transformZipEntriesGo, hap, hrun, updateZip_replace,
              zipReplacedEntry, hloop2, List.nil_append]
    exact ⟨hE, hT, hZ⟩

/-- C5: round-trip.  For a well-formed tar.gz (respectively zip) archive
none of whose entries at any nesting depth is present in the transform
registry, the rebuilder succeeds with the process state returned exactly as
given (nothing consumed, nothing cached, no signer invoked) and its output
is the serialisation of an entry list that corresponds to the original
entry-by-entry, in order: entries that are not nested archives are
byte-for-byte identical including their headers, and nested archives keep
their names, contents (recursively, up to re-serialisation of their own
unchanged entry lists) and all header fields except the container-level
timestamp and content-derived size metadata (DeepSameTarList /
DeepSameZipList). -/
theorem rebuild_roundtrip (env : Env) (fuel : Nat) (st : St) (p : DeepPath) (b : Bytes) :
    (∀ es, env.codec.gunzipTar b = some es →
      cleanTarList env st.filesToTransform fuel p es = true →
      ∃ es2, TransformTarGzToFile env fuel st p b = .ok (env.codec.gzipTar es2, st) ∧
        DeepSameTarList env p es es2) ∧
    (∀ es, env.codec.unzip b = some es →
      cleanZipList env st.filesToTransform fuel p es = true →
      ∃ es2, TransformZipToFile env fuel st p b = .ok (env.codec.zipUp es2, st) ∧
        DeepSameZipList env p es es2) := by
  constructor
  · intro es hparse hclean
    obtain ⟨es2, hloop, hsame⟩ := (clean_master env fuel).2.1 st p es hclean
    exact ⟨es2, by simp only [TransformTarGzToFile, TransformTarGzToFileGo, hparse, hloop],
      hsame⟩
  · intro es hparse hclean
    obtain ⟨es2, hloop, hsame⟩ := (clean_master env fuel).2.2 st p es hclean
    exact ⟨es2, by simp only [TransformZipToFile, TransformZipToFileGo, hparse, hloop],
      hsame⟩

/-- Witness for C5 at the concrete one-entry tar.gz [7] and the concrete
one-entry zip [8], neither of whose entries is registered. -/
theorem rebuild_roundtrip_witness :
    (∃ es2, TransformTarGzToFile exEnv 1 exStPlain (NewDeepPath "dist/a.tar.gz") [7] =
      .ok (exEnv.codec.gzipTar es2, exStPlain) ∧
      DeepSameTarList exEnv (NewDeepPath "dist/a.tar.gz") [exTarEntry] es2) ∧
    (∃ es2, TransformZipToFile exEnv 1 exStPlain (NewDeepPath "dist/b.zip") [8] =
      .ok (exEnv.codec.zipUp es2, exStPlain) ∧
      DeepSameZipList exEnv (NewDeepPath "dist/b.zip") [exZipEntry] es2) :=
  ⟨(rebuild_roundtrip exEnv 1 exStPlain (NewDeepPath "dist/a.tar.gz") [7]).1
      [exTarEntry] (by decide) (by decide),
   (rebuild_roundtrip exEnv 1 exStPlain (NewDeepPath "dist/b.zip") [8]).2
      [exZipEntry] (by decide) (by decide)⟩
